import Mathlib

/-!
Shallow embedding of the WordSynth Three.js visualization core
(class ThreeJSVisualization): point ingestion and alignment,
object lifecycle and highlight management, and the camera
navigation behavior (custom wheel handler, target-only animation,
resize handler).

Positions and all scalar quantities are rationals.  The single
irrational primitive the source uses, Math.sqrt (and Math.sin for
frame-to-fit), is modeled by an explicit oracle record ExtMath; the
theorems that depend on actual square roots hypothesize that the
oracle is exact on the inputs it is applied to.  Scene objects carry
a numeric identity (allocated from a counter in the state) modelling
JavaScript object identity for scene.add / scene.remove.
-/

namespace WordSynth

/-- A 3D vector with rational components (models THREE.Vector3). -/
structure Vec3 where
  x : ℚ
  y : ℚ
  z : ℚ
deriving DecidableEq, Repr

def Vec3.add (a b : Vec3) : Vec3 := ⟨a.x + b.x, a.y + b.y, a.z + b.z⟩

def Vec3.sub (a b : Vec3) : Vec3 := ⟨a.x - b.x, a.y - b.y, a.z - b.z⟩

def Vec3.smul (k : ℚ) (a : Vec3) : Vec3 := ⟨k * a.x, k * a.y, k * a.z⟩

def Vec3.normSq (a : Vec3) : ℚ := a.x ^ 2 + a.y ^ 2 + a.z ^ 2

/-- Squared Euclidean distance.  The source compares and scales actual
distances (Math.sqrt of this); comparisons of nonnegative distances
are equivalent to comparisons of their squares. -/
def distSq (a b : Vec3) : ℚ := Vec3.normSq (Vec3.sub a b)

/-- THREE.Vector3.lerpVectors v1 v2 t = v1 + (v2 - v1) * t. -/
def lerpVec (a b : Vec3) (t : ℚ) : Vec3 := Vec3.add a (Vec3.smul t (Vec3.sub b a))

/-- A point record as delivered in a batch:
{ word, x, y, z, is_base, is_mix, is_neighbor }. -/
structure Point where
  word : String
  x : ℚ
  y : ℚ
  z : ℚ
  is_base : Bool
  is_mix : Bool
  is_neighbor : Bool
deriving DecidableEq, Repr

def Point.pos (p : Point) : Vec3 := ⟨p.x, p.y, p.z⟩

/-- Geometry kinds relevant to the defensive glow sweep. -/
inductive Geom where
  | sphere
  | box
  | plane
  | line
deriving DecidableEq, Repr

/-- A rendered scene object.  id models JavaScript object identity. -/
structure SceneObj where
  id : Nat
  isMesh : Bool
  geom : Geom
  transparent : Bool
  opacity : ℚ
  color : Nat
  pos : Vec3
  scale : ℚ
  size : ℚ
  label : Option String
deriving DecidableEq, Repr

/-- Glow bookkeeping stored in a word object: absent, a single glow
object (mix marker), or the inner/outer pair used for neighbors. -/
inductive Glow where
  | none
  | single (gid : Nat)
  | pair (inner outer : Nat)
deriving DecidableEq, Repr

def Glow.ids : Glow → List Nat
  | Glow.none => []
  | Glow.single g => [g]
  | Glow.pair i o => [i, o]

/-- Entry of this.wordObjects: { sphere, text, point, glow }. -/
structure VisObj where
  sphere : Nat
  text : Nat
  point : Point
  glow : Glow
deriving DecidableEq, Repr

def VisObj.ids (v : VisObj) : List Nat := v.sphere :: v.text :: v.glow.ids

/-- Oracle for the irrational primitives the source calls:
Math.sqrt, and Math.sin(fov/2) used by frame-to-fit. -/
structure ExtMath where
  sqrt : ℚ → ℚ
  sinHalfFov : ℚ

/-- The mutable state of a ThreeJSVisualization instance. -/
structure VizState where
  scene : List SceneObj
  wordObjects : List (String × VisObj)
  currentBaseWord : Option String
  currentMixPoint : Option Point
  cameraPos : Vec3
  target : Vec3
  cameraTranslated : Bool
  initialCameraPos : Vec3
  initialCameraTarget : Vec3
  cameraAspect : ℚ
  rendererW : ℚ
  rendererH : ℚ
  nextId : Nat
deriving DecidableEq, Repr

/-- Map.get on the insertion-ordered word map. -/
def mapGet (m : List (String × VisObj)) (k : String) : Option VisObj :=
  match m with
  | [] => Option.none
  | e :: rest => if e.1 = k then some e.2 else mapGet rest k

/-- Map.set: replace in place if the key exists, else append. -/
def mapSet (m : List (String × VisObj)) (k : String) (v : VisObj) :
    List (String × VisObj) :=
  if (mapGet m k).isSome then
    m.map (fun e => if e.1 = k then (k, v) else e)
  else
    m ++ [(k, v)]

def hasWord (s : VizState) (w : String) : Bool := (mapGet s.wordObjects w).isSome

/-- scene.remove for a list of object identities. -/
def sceneRemoveIds (sc : List SceneObj) (ids : List Nat) : List SceneObj :=
  sc.filter (fun o => decide (¬ o.id ∈ ids))

/-- The glow-sweep signature tested by clearAllGlowSpheres: a mesh with
a transparent material, opacity < 1, sphere or box geometry, and
opacity <= 0.5. -/
def isGlowSig (o : SceneObj) : Bool :=
  o.isMesh && o.transparent && decide (o.opacity < 1) &&
    (decide (o.geom = Geom.sphere) || decide (o.geom = Geom.box)) &&
    decide (o.opacity ≤ 1/2)

/-- clearAllGlowSpheres: traverse the scene and remove everything
matching the glow signature. -/
def clearAllGlowSpheres (s : VizState) : VizState :=
  { s with scene := s.scene.filter (fun o => ! isGlowSig o) }

/-- createWordSphere(position, color, size): SphereGeometry mesh with a
MeshLambertMaterial, transparent, opacity 0.8. -/
def createWordSphere (id : Nat) (position : Vec3) (color : Nat) (size : ℚ) : SceneObj :=
  { id := id, isMesh := true, geom := Geom.sphere, transparent := true,
    opacity := 4/5, color := color, pos := position, scale := 1, size := size,
    label := Option.none }

/-- createGlowSphere(position, color, size): SphereGeometry mesh,
transparent, opacity 0.4, BackSide. -/
def createGlowSphere (id : Nat) (position : Vec3) (color : Nat) (size : ℚ) : SceneObj :=
  { id := id, isMesh := true, geom := Geom.sphere, transparent := true,
    opacity := 2/5, color := color, pos := position, scale := 1, size := size,
    label := Option.none }

/-- createTextMesh(text, position, color, size, opacity): PlaneGeometry
mesh with a canvas texture, transparent, given opacity. -/
def createTextMesh (id : Nat) (text : String) (position : Vec3) (color : Nat)
    (size : ℚ) (opacity : ℚ) : SceneObj :=
  { id := id, isMesh := true, geom := Geom.plane, transparent := true,
    opacity := opacity, color := color, pos := position, scale := 1, size := size,
    label := some text }

/-- createBaseWord(point): bright red sphere (size 0.04) and red label,
store under the word, set currentBaseWord, then clear stray glows. -/
def createBaseWord (s : VizState) (point : Point) : VizState :=
  let spId := s.nextId
  let sph := createWordSphere spId point.pos 0xff0000 (1/25)
  let txId := s.nextId + 1
  let tx := createTextMesh txId point.word point.pos 0xff0000 (3/5) 1
  let s1 : VizState :=
    { s with scene := s.scene ++ [sph, tx],
             wordObjects := mapSet s.wordObjects point.word
               ⟨spId, txId, point, Glow.none⟩,
             currentBaseWord := some point.word,
             nextId := s.nextId + 2 }
  clearAllGlowSpheres s1

/-- createOtherWord(point): dark-red larger sphere plus a two-layer glow
for neighbors, blue smaller sphere otherwise; label opacity fades with
camera distance (floor 0.3 at distance 10 and beyond). -/
def createOtherWord (ext : ExtMath) (s : VizState) (point : Point) : VizState :=
  let sphereColor := if point.is_neighbor then 0x8B0000 else 0x0066ff
  let sphereSize : ℚ := if point.is_neighbor then 1/20 else 3/100
  let spId := s.nextId
  let sph := createWordSphere spId point.pos sphereColor sphereSize
  let glowObjs : List SceneObj :=
    if point.is_neighbor then
      [createGlowSphere (s.nextId + 1) point.pos 0xff0000 (3/25),
       { createGlowSphere (s.nextId + 2) point.pos 0xff4444 (9/50) with opacity := 3/20 }]
    else []
  let glow : Glow :=
    if point.is_neighbor then Glow.pair (s.nextId + 1) (s.nextId + 2) else Glow.none
  let txId := if point.is_neighbor then s.nextId + 3 else s.nextId + 1
  let fadeFactor := max (3/10) (1 - ext.sqrt (distSq s.cameraPos point.pos) / 10)
  let tx := createTextMesh txId point.word point.pos 0xffffff (1/2) fadeFactor
  { s with scene := s.scene ++ [sph] ++ glowObjs ++ [tx],
           wordObjects := mapSet s.wordObjects point.word ⟨spId, txId, point, glow⟩,
           nextId := txId + 1 }

/-- createCurrentMixPoint(point): magenta cube (opacity 0.9), a larger
glow cube (opacity 0.3), and a label offset 0.2 above; stored under the
reserved key "current_mix". -/
def createCurrentMixPoint (s : VizState) (point : Point) : VizState :=
  let cubeId := s.nextId
  let cube : SceneObj :=
    { id := cubeId, isMesh := true, geom := Geom.box, transparent := true,
      opacity := 9/10, color := 0xFF00FF, pos := point.pos, scale := 1,
      size := 3/20, label := Option.none }
  let glowId := s.nextId + 1
  let glowCube : SceneObj :=
    { id := glowId, isMesh := true, geom := Geom.box, transparent := true,
      opacity := 3/10, color := 0xFF00FF, pos := point.pos, scale := 1,
      size := 1/4, label := Option.none }
  let txId := s.nextId + 2
  let tx := createTextMesh txId "CURRENT MIX" (Vec3.add point.pos ⟨0, 1/5, 0⟩)
    0xFF00FF (4/5) 1
  { s with scene := s.scene ++ [cube, glowCube, tx],
           wordObjects := mapSet s.wordObjects "current_mix"
             ⟨cubeId, txId, point, Glow.single glowId⟩,
           currentMixPoint := some point,
           nextId := s.nextId + 3 }

/-- clearWordObjects(): remove every tracked sphere, label and glow from
the scene, empty the map, null the base word and mix point, then run the
defensive glow sweep. -/
def clearWordObjects (s : VizState) : VizState :=
  let scene1 := s.wordObjects.foldl (fun sc e => sceneRemoveIds sc e.2.ids) s.scene
  clearAllGlowSpheres
    { s with scene := scene1, wordObjects := [],
             currentBaseWord := Option.none, currentMixPoint := Option.none }

/-- centerOnBaseWord(baseWordPoint): orbit target to the base word,
camera at a fixed offset (+3,+3,+3) from it, refresh the translation
bookkeeping. -/
def centerOnBaseWord (s : VizState) (baseWordPoint : Point) : VizState :=
  let basePosition := baseWordPoint.pos
  let newCam := Vec3.add basePosition ⟨3, 3, 3⟩
  { s with target := basePosition, cameraPos := newCam,
           initialCameraPos := newCam, initialCameraTarget := basePosition }

/-- fitCameraToPoints(points): axis-aligned bounding box, camera at
|maxDim / sin(fov/2)| * 0.8 along the (1,1,1) diagonal from the center,
target at the center. -/
def fitCameraToPoints (ext : ExtMath) (s : VizState) (points : List Point) : VizState :=
  match points with
  | [] => s
  | q :: rest =>
    let lo := rest.foldl (fun (m : Vec3) p => ⟨min m.x p.x, min m.y p.y, min m.z p.z⟩) q.pos
    let hi := rest.foldl (fun (m : Vec3) p => ⟨max m.x p.x, max m.y p.y, max m.z p.z⟩) q.pos
    let center := Vec3.smul (1/2) (Vec3.add lo hi)
    let size := Vec3.sub hi lo
    let maxDim := max size.x (max size.y size.z)
    let cameraDistance := |maxDim / ext.sinHalfFov| * (4/5)
    let newCam := Vec3.add center ⟨cameraDistance, cameraDistance, cameraDistance⟩
    { s with cameraPos := newCam, target := center,
             initialCameraPos := newCam, initialCameraTarget := center }

/-- The find/filter decomposition done at the top of every ingestion:
first is_base point, non-base non-mix points, first is_mix point. -/
def findBasePoint (points : List Point) : Option Point := points.find? (fun p => p.is_base)

def otherWordsOf (points : List Point) : List Point :=
  points.filter (fun p => ! p.is_base && ! p.is_mix)

def findMixPoint (points : List Point) : Option Point := points.find? (fun p => p.is_mix)

/-- updateVisualization(data): clear everything, then (if data is
present and nonempty) create base word, other words and mix point at
their reported coordinates and frame the camera to the whole set. -/
def updateVisualization (ext : ExtMath) (s : VizState) (data : Option (List Point)) :
    VizState :=
  let s0 := clearWordObjects s
  match data with
  | Option.none => s0
  | some points =>
    if points.isEmpty then s0
    else
      let s1 := match findBasePoint points with
        | some bp => createBaseWord s0 bp
        | Option.none => s0
      let s2 := (otherWordsOf points).foldl (fun st p => createOtherWord ext st p) s1
      let s3 := match findMixPoint points with
        | some mp => createCurrentMixPoint s2 mp
        | Option.none => s2
      fitCameraToPoints ext s3 points

/-- The body of the progressive creation loop over the non-base non-mix
records: skip a word already present, otherwise create the record after
applying the coordinate transform f (the identity for the unaligned
append, the centroid rescale for the aligned one; the transform never
changes the word). -/
def ingestStep (ext : ExtMath) (f : Point → Point) (st : VizState) (p : Point) :
    VizState :=
  if hasWord st p.word then st else createOtherWord ext st (f p)

/-- addWordsProgressively(data): create only the records whose word (or
the reserved mix key) is not yet present; a newly created base word also
recenters the camera on itself; no camera re-framing otherwise. -/
def addWordsProgressively (ext : ExtMath) (s : VizState) (data : Option (List Point)) :
    VizState :=
  match data with
  | Option.none => s
  | some points =>
    if points.isEmpty then s
    else
      let s1 := match findBasePoint points with
        | some bp =>
          if hasWord s bp.word then s
          else centerOnBaseWord (createBaseWord s bp) bp
        | Option.none => s
      let s2 := (otherWordsOf points).foldl (ingestStep ext (fun p => p)) s1
      let s3 := match findMixPoint points with
        | some mp =>
          if hasWord s2 "current_mix" then s2 else createCurrentMixPoint s2 mp
        | Option.none => s2
      s3

/-- The per-record rescale of the aligned append:
scaled = (point - centroid) * scaleFactor + existingBasePosition. -/
def alignPoint (c : Vec3) (scaleFactor : ℚ) (existingPosition : Vec3) (p : Point) : Point :=
  { p with x := (p.x - c.x) * scaleFactor + existingPosition.x,
           y := (p.y - c.y) * scaleFactor + existingPosition.y,
           z := (p.z - c.z) * scaleFactor + existingPosition.z }

/-- Centroid of the non-base non-mix batch points (0 when there are none). -/
def centroidOf (pts : List Point) : Vec3 :=
  let sum := pts.foldl (fun (acc : Vec3) p => Vec3.add acc p.pos) ⟨0, 0, 0⟩
  if 0 < pts.length then Vec3.smul (1 / (pts.length : ℚ)) sum else sum

/-- Maximum Euclidean distance from a batch point to the centroid, with
Math.sqrt supplied by the oracle. -/
def maxDistOf (ext : ExtMath) (c : Vec3) (pts : List Point) : ℚ :=
  pts.foldl (fun m p => max m (ext.sqrt (distSq p.pos c))) 0

/-- addWordsProgressivelyAligned(data, existingBaseWord): if the anchor
has no visual object fall back to addWordsProgressively; otherwise
rescale every new record around the batch centroid by
targetRadius(4.0)/maxDistance (1 when maxDistance is 0) and translate it
onto the anchor's stored position. -/
def addWordsProgressivelyAligned (ext : ExtMath) (s : VizState)
    (data : Option (List Point)) (existingBaseWord : String) : VizState :=
  match data with
  | Option.none => s
  | some points =>
    if points.isEmpty then s
    else
      match mapGet s.wordObjects existingBaseWord with
      | Option.none => addWordsProgressively ext s data
      | some existingBaseWordObj =>
        let existingPosition := existingBaseWordObj.point.pos
        let otherWords := otherWordsOf points
        let c := centroidOf otherWords
        let maxDistance := maxDistOf ext c otherWords
        let scaleFactor := if 0 < maxDistance then 4 / maxDistance else 1
        let s1 := match findBasePoint points with
          | some bp =>
            if hasWord s bp.word then s
            else createBaseWord s
              { bp with x := existingPosition.x, y := existingPosition.y,
                        z := existingPosition.z }
          | Option.none => s
        let s2 := otherWords.foldl
          (ingestStep ext (alignPoint c scaleFactor existingPosition)) s1
        let s3 := match findMixPoint points with
          | some mp =>
            if hasWord s2 "current_mix" then s2
            else createCurrentMixPoint s2 (alignPoint c scaleFactor existingPosition mp)
          | Option.none => s2
        s3

/-- Removal loop body of clearWordObjectsExcept: scene.remove of a
tracked entry's sphere, label and glow objects. -/
def removeEntriesScene (sc : List SceneObj) (ents : List (String × VisObj)) :
    List SceneObj :=
  ents.foldl (fun sc e => sceneRemoveIds sc e.2.ids) sc

/-- First phase of clearWordObjectsExcept(keepWord): remove every
tracked object whose word is neither keepWord nor the reserved mix key
from the scene and from the map, then sweep stray glows when the base
word is about to change. -/
def clearExceptPhase1 (s : VizState) (keepWord : String) : VizState :=
  let removed := s.wordObjects.filter
    (fun e => decide (e.1 ≠ keepWord) && decide (e.1 ≠ "current_mix"))
  let scene1 := removeEntriesScene s.scene removed
  let map1 := s.wordObjects.filter
    (fun e => decide (e.1 = keepWord) || decide (e.1 = "current_mix"))
  let s1 : VizState := { s with scene := scene1, wordObjects := map1 }
  if keepWord ≠ "" ∧ s.currentBaseWord ≠ some keepWord then
    clearAllGlowSpheres s1
  else s1

/-- Second phase: re-style the kept word's visual object as the base
word — sphere turned red and enlarged in place, glow removed, label
regenerated in red — update its map entry (glow handle dropped), set
currentBaseWord, and run the defensive glow sweep. -/
def restyleBaseWord (s2 : VizState) (keepWord : String) (v : VisObj) : VizState :=
  let scene2 := s2.scene.map (fun o =>
    if o.id = v.sphere then { o with color := 0xff0000, scale := 4/3 } else o)
  let scene3 := sceneRemoveIds scene2 v.glow.ids
  let txId := s2.nextId
  let ntx := createTextMesh txId keepWord v.point.pos 0xff0000 (3/5) 1
  let scene4 := sceneRemoveIds scene3 [v.text] ++ [ntx]
  let map2 := mapSet s2.wordObjects keepWord ⟨v.sphere, txId, v.point, Glow.none⟩
  clearAllGlowSpheres
    { s2 with scene := scene4, wordObjects := map2,
              currentBaseWord := some keepWord, nextId := txId + 1 }

/-- clearWordObjectsExcept(keepWord): remove every tracked object other
than keepWord and the mix marker; sweep stray glows when the base word
changes; if the kept word is still tracked, re-style it as the base word
and sweep again. -/
def clearWordObjectsExcept (s : VizState) (keepWord : String) : VizState :=
  let s2 := clearExceptPhase1 s keepWord
  if keepWord = "" then s2
  else
    match mapGet s2.wordObjects keepWord with
    | Option.none => s2
    | some v => restyleBaseWord s2 keepWord v

/-- Movement vector of one wheel tick: the camera's forward direction
scaled by +0.025 (wheel down) or -0.025 (wheel up). -/
def wheelMove (direction : Vec3) (deltaYPos : Bool) : Vec3 :=
  Vec3.smul (if deltaYPos then 1/40 else -(1/40)) direction

/-- The custom wheel handler of setupCustomWheelBehavior.  In orbit mode
(cameraTranslated false) the move is applied only when it increases the
distance to the target or keeps it at least the 0.2 floor; in translate
mode it is applied unconditionally.  Distance comparisons in the source
are between nonnegative Euclidean distances, equivalently compared here
through their squares (0.2^2 = 1/25). -/
def onWheel (s : VizState) (direction : Vec3) (deltaYPos : Bool) : VizState :=
  let newPosition := Vec3.add s.cameraPos (wheelMove direction deltaYPos)
  if s.cameraTranslated then { s with cameraPos := newPosition }
  else
    let currentDistanceSq := distSq s.cameraPos s.target
    let newDistanceSq := distSq newPosition s.target
    if newDistanceSq > currentDistanceSq ∨ newDistanceSq ≥ 1/25 then
      { s with cameraPos := newPosition }
    else s

/-- A whole sequence of wheel ticks, each an arbitrary forward direction
and wheel sign. -/
def onWheelTicks (s : VizState) (ticks : List (Vec3 × Bool)) : VizState :=
  ticks.foldl (fun st t => onWheel st t.1 t.2) s

/-- onWindowResize(): unconditionally recompute the aspect ratio from
the container's current dimensions and resize the renderer. -/
def onWindowResize (s : VizState) (width height : ℚ) : VizState :=
  { s with cameraAspect := width / height, rendererW := width, rendererH := height }

/-- A pending target-only animation started by animateCameraTarget. -/
structure Anim where
  startTarget : Vec3
  endTarget : Vec3
  duration : ℚ
deriving DecidableEq, Repr

/-- The ease-in / ease-out curve of animateCameraTarget:
2p^2 below one half, 1 - (-2p+2)^3/2 above. -/
def easeInOut (p : ℚ) : ℚ :=
  if p < 1/2 then 2 * p ^ 2 else 1 - (-2 * p + 2) ^ 3 / 2

/-- animateCameraTarget(targetPosition): record a 600ms target-only
animation from the live controls target. -/
def animateCameraTarget (s : VizState) (targetPosition : Vec3) : Anim :=
  { startTarget := s.target, endTarget := targetPosition, duration := 600 }

/-- One frame of the animateCameraTarget loop at a given elapsed time:
only controls.target is interpolated, the camera position is untouched. -/
def animFrame (s : VizState) (a : Anim) (elapsed : ℚ) : VizState :=
  let progress := min (elapsed / a.duration) 1
  { s with target := lerpVec a.startTarget a.endTarget (easeInOut progress) }

/-- pointCameraAtWord(word): no-op on an absent word; otherwise drop to
orbit mode, re-anchor the translation bookkeeping, and start the
target-only animation towards the word's position. -/
def pointCameraAtWord (s : VizState) (word : String) : VizState × Option Anim :=
  match mapGet s.wordObjects word with
  | Option.none => (s, Option.none)
  | some wordData =>
    let targetPosition := wordData.point.pos
    let s1 : VizState :=
      { s with cameraTranslated := false, initialCameraPos := s.cameraPos,
               initialCameraTarget := targetPosition }
    (s1, some (animateCameraTarget s1 targetPosition))

/-- handleSingleClick with the ray-cast already resolved to a word (or
to nothing): a hit points the camera at the word, a miss is a no-op. -/
def handleSingleClickResolved (s : VizState) (hit : Option String) :
    VizState × Option Anim :=
  match hit with
  | Option.none => (s, Option.none)
  | some word => pointCameraAtWord s word

/-- handleDoubleClick with the ray-cast already resolved: on a hit,
reset to orbit mode, re-anchor bookkeeping to the clicked sphere's
position, then point the camera at the word (the external clickHandler
callback is outside the model). -/
def handleDoubleClickResolved (s : VizState) (hit : Option String) :
    VizState × Option Anim :=
  match hit with
  | Option.none => (s, Option.none)
  | some word =>
    match mapGet s.wordObjects word with
    | Option.none => (s, Option.none)
    | some wordData =>
      let spherePos :=
        ((s.scene.find? (fun o => o.id = wordData.sphere)).map (fun o => o.pos)).getD
          ⟨0, 0, 0⟩
      let s1 : VizState :=
        { s with cameraTranslated := false, initialCameraPos := s.cameraPos,
                 initialCameraTarget := spherePos }
      pointCameraAtWord s1 word

/-- The highlight signature named by the specification: a mesh with a
transparent material, opacity at most 0.5, and sphere or box geometry. -/
def highlightSig (o : SceneObj) : Bool :=
  o.isMesh && o.transparent && decide (o.opacity ≤ 1/2) &&
    (decide (o.geom = Geom.sphere) || decide (o.geom = Geom.box))

/-- Keys of the word-object map, in insertion order. -/
def mapKeys (m : List (String × VisObj)) : List String := m.map Prod.fst

/-- The JavaScript Map never holds two entries with the same key. -/
def nodupKeys (m : List (String × VisObj)) : Prop := (mapKeys m).Nodup

/-- A common empty state used to instantiate witnesses. -/
def baseState : VizState :=
  { scene := [], wordObjects := [], currentBaseWord := Option.none,
    currentMixPoint := Option.none, cameraPos := ⟨3, 3, 3⟩, target := ⟨0, 0, 0⟩,
    cameraTranslated := false, initialCameraPos := ⟨3, 3, 3⟩,
    initialCameraTarget := ⟨0, 0, 0⟩, cameraAspect := 4/3, rendererW := 800,
    rendererH := 600, nextId := 0 }

/-- A trivial oracle instance for witnesses that never consult it. -/
def extZero : ExtMath := ⟨fun _ => 0, 1⟩

/-- An oracle exact on the only squared distance (25) appearing in the
concrete aligned batch used for the alignment witness. -/
def extSqrt25 : ExtMath := ⟨fun q => if q = 25 then 5 else 0, 1⟩

/-- A state holding one word object, used to exhibit that
updateVisualization with missing data is not a no-op and as an anchor
state for the alignment witness. -/
def oneWordState : VizState :=
  { baseState with
      wordObjects := [("king", ⟨0, 1, ⟨"king", 0, 0, 0, true, false, false⟩, Glow.none⟩)],
      scene := [createWordSphere 0 ⟨0, 0, 0⟩ 0xff0000 (1/25),
                createTextMesh 1 "king" ⟨0, 0, 0⟩ 0xff0000 (3/5) 1],
      currentBaseWord := some "king", nextId := 2 }

/-- A state with one present neighbor word used to instantiate the
selection theorem. -/
def oneNeighborState : VizState :=
  { baseState with
      wordObjects := [("queen", ⟨0, 3, ⟨"queen", 1, 2, 0, false, false, true⟩,
        Glow.pair 1 2⟩)],
      scene := [createWordSphere 0 ⟨1, 2, 0⟩ 0x8B0000 (1/20),
                createGlowSphere 1 ⟨1, 2, 0⟩ 0xff0000 (3/25),
                createGlowSphere 2 ⟨1, 2, 0⟩ 0xff4444 (9/50),
                createTextMesh 3 "queen" ⟨1, 2, 0⟩ 0xffffff (1/2) 1],
      nextId := 4 }

/-- A state holding a base word and a mix marker with its glow cube,
used to instantiate the selective-clear theorem. -/
def mixKeepState : VizState :=
  { baseState with
      wordObjects :=
        [("king", ⟨0, 1, ⟨"king", 0, 0, 0, true, false, false⟩, Glow.none⟩),
         ("current_mix", ⟨2, 4, ⟨"mixy", 1, 1, 1, false, true, false⟩, Glow.single 3⟩)],
      scene :=
        [⟨0, true, Geom.sphere, true, 4/5, 0xff0000, ⟨0, 0, 0⟩, 1, 1/25, Option.none⟩,
         ⟨1, true, Geom.plane, true, 1, 0xff0000, ⟨0, 0, 0⟩, 1, 3/5, some "king"⟩,
         ⟨2, true, Geom.box, true, 9/10, 0xFF00FF, ⟨1, 1, 1⟩, 1, 3/20, Option.none⟩,
         ⟨3, true, Geom.box, true, 3/10, 0xFF00FF, ⟨1, 1, 1⟩, 1, 1/4, Option.none⟩,
         ⟨4, true, Geom.plane, true, 1, 0xFF00FF, ⟨1, 6/5, 1⟩, 1, 4/5,
           some "CURRENT MIX"⟩],
      currentBaseWord := some "king",
      currentMixPoint := some ⟨"mixy", 1, 1, 1, false, true, false⟩,
      nextId := 5 }

/-! ## Theorems -/

theorem highlightSig_isGlowSig {o : SceneObj} (h : highlightSig o = true) :
    isGlowSig o = true := by
  simp only [highlightSig, isGlowSig, Bool.and_eq_true, Bool.or_eq_true,
    decide_eq_true_eq] at h ⊢
  refine ⟨⟨⟨⟨h.1.1.1, h.1.1.2⟩, ?_⟩, h.2⟩, h.1.2⟩
  linarith [h.1.2]

theorem filter_highlight_after_sweep (l : List SceneObj) :
    (l.filter (fun o => ! isGlowSig o)).filter (fun o => highlightSig o) = [] := by
  rw [List.filter_eq_nil_iff]
  intro o ho
  rcases List.mem_filter.mp ho with ⟨-, hno⟩
  intro hhl
  rw [highlightSig_isGlowSig (by simpa using hhl)] at hno
  simp at hno

/-- C6: after clearWordObjects() the scene contains no object matching
the highlight signature (mesh, transparent, opacity <= 0.5, sphere or
box geometry), the word-object map is empty, and currentBaseWord and
currentMixPoint are reset to null. -/
theorem C6_clear_all_glow_clean (s : VizState) :
    ((clearWordObjects s).scene.filter (fun o => highlightSig o)) = []
    ∧ (clearWordObjects s).wordObjects = []
    ∧ (clearWordObjects s).currentBaseWord = Option.none
    ∧ (clearWordObjects s).currentMixPoint = Option.none := by
  refine ⟨?_, rfl, rfl, rfl⟩
  exact filter_highlight_after_sweep _

/-- C9 counterexample: a resize that reports zero height is not skipped:
the handler still recomputes the aspect ratio and renderer size, so the
aspect does not stay at its previous finite positive value. -/
theorem C9_counterexample :
    (onWindowResize baseState 300 0).cameraAspect ≠ baseState.cameraAspect
    ∧ (onWindowResize baseState 300 0).rendererH = 0
    ∧ baseState.rendererH = 600 := by
  refine ⟨?_, rfl, rfl⟩
  simp only [onWindowResize, baseState]
  norm_num

/-- C9 amended: onWindowResize has no zero-area guard: it always
recomputes camera aspect = width / height and resizes the renderer to
the reported dimensions, whatever they are (so a zero-dimension resize
degrades the aspect instead of being skipped); it touches nothing else,
and a subsequent resize with positive dimensions restores a positive
aspect. -/
theorem C9_resize_recompute (s : VizState) (width height : ℚ)
    (hpos : 0 < width ∧ 0 < height) :
    (onWindowResize s width height).cameraAspect = width / height
    ∧ (onWindowResize s width height).rendererW = width
    ∧ (onWindowResize s width height).rendererH = height
    ∧ (onWindowResize s width height).cameraPos = s.cameraPos
    ∧ (onWindowResize s width height).wordObjects = s.wordObjects
    ∧ 0 < (onWindowResize s width height).cameraAspect := by
  refine ⟨rfl, rfl, rfl, rfl, rfl, ?_⟩
  exact div_pos hpos.1 hpos.2

theorem C9_resize_recompute_witness :
    ((0:ℚ) < 400 ∧ (0:ℚ) < 300)
    ∧ ((onWindowResize baseState 400 300).cameraAspect = 400 / 300
      ∧ (onWindowResize baseState 400 300).rendererW = 400
      ∧ (onWindowResize baseState 400 300).rendererH = 300
      ∧ (onWindowResize baseState 400 300).cameraPos = baseState.cameraPos
      ∧ (onWindowResize baseState 400 300).wordObjects = baseState.wordObjects
      ∧ 0 < (onWindowResize baseState 400 300).cameraAspect) :=
  ⟨by norm_num, C9_resize_recompute baseState 400 300 (by norm_num)⟩

/-- C3 counterexample: updateVisualization clears the scene before it
checks for missing data, so calling it with missing data on a non-empty
state changes the word-object map (it is emptied) — not a no-op. -/
theorem C3_counterexample :
    (updateVisualization extZero oneWordState Option.none).wordObjects
      ≠ oneWordState.wordObjects := by
  decide

/-- C3 amended: for addWordsProgressively and
addWordsProgressivelyAligned, missing data or an empty points list is a
no-op (state unchanged, no error).  updateVisualization first clears all
existing word objects unconditionally and only then returns on
missing/empty data: the map is emptied and tracked objects removed,
nothing is created, and the camera state is left unchanged, with no
error surfaced. -/
theorem C3_empty_ingestion (ext : ExtMath) (s : VizState) (w : String) :
    addWordsProgressively ext s Option.none = s
    ∧ addWordsProgressively ext s (some []) = s
    ∧ addWordsProgressivelyAligned ext s Option.none w = s
    ∧ addWordsProgressivelyAligned ext s (some []) w = s
    ∧ updateVisualization ext s Option.none = clearWordObjects s
    ∧ updateVisualization ext s (some []) = clearWordObjects s
    ∧ (clearWordObjects s).cameraPos = s.cameraPos
    ∧ (clearWordObjects s).target = s.target
    ∧ (clearWordObjects s).cameraTranslated = s.cameraTranslated
    ∧ (updateVisualization ext s Option.none).wordObjects = [] := by
  refine ⟨rfl, rfl, rfl, rfl, rfl, rfl, rfl, rfl, rfl, rfl⟩

theorem orbit_onWheel_floor (st : VizState) (dir : Vec3) (b : Bool)
    (ht : st.cameraTranslated = false)
    (h : 1/25 ≤ distSq st.cameraPos st.target) :
    1/25 ≤ distSq (onWheel st dir b).cameraPos (onWheel st dir b).target
    ∧ (onWheel st dir b).cameraTranslated = false
    ∧ (onWheel st dir b).target = st.target := by
  unfold onWheel
  rw [ht]
  simp only [Bool.false_eq_true, if_false]
  split
  case isTrue hc =>
    refine ⟨?_, rfl, rfl⟩
    rcases hc with haway | habove
    · exact le_of_lt (lt_of_le_of_lt h haway)
    · exact habove
  case isFalse hc => exact ⟨h, ht, rfl⟩

/-- C2: in orbit mode, starting at squared distance at least (0.2)^2 =
1/25 from the orbit target, no sequence of wheel ticks ever brings the
camera strictly inside the floor distance (comparisons of nonnegative
distances being equivalent to comparisons of their squares), and a tick
that would (neither moving away nor remaining at or above the floor) is
a no-op leaving the whole state unchanged. -/
theorem C2_orbit_wheel_floor (s : VizState) (ticks : List (Vec3 × Bool))
    (st : VizState) (dir : Vec3) (b : Bool)
    (hts : s.cameraTranslated = false)
    (h : 1/25 ≤ distSq s.cameraPos s.target)
    (htst : st.cameraTranslated = false)
    (hno : ¬ (distSq (Vec3.add st.cameraPos (wheelMove dir b)) st.target
                > distSq st.cameraPos st.target
              ∨ distSq (Vec3.add st.cameraPos (wheelMove dir b)) st.target ≥ 1/25)) :
    1/25 ≤ distSq (onWheelTicks s ticks).cameraPos (onWheelTicks s ticks).target
    ∧ (onWheelTicks s ticks).cameraTranslated = false
    ∧ (onWheelTicks s ticks).target = s.target
    ∧ onWheel st dir b = st := by
  have hstep : onWheel st dir b = st := by
    unfold onWheel
    rw [htst]
    simp only [Bool.false_eq_true, if_false]
    rw [if_neg hno]
  refine ⟨?_, ?_, ?_, hstep⟩
  all_goals
    induction ticks generalizing s with
    | nil => first | exact h | exact hts | rfl
    | cons t rest ih =>
      have hone := orbit_onWheel_floor s t.1 t.2 hts h
      have := ih (onWheel s t.1 t.2) hone.2.1 hone.1
      simp only [onWheelTicks, List.foldl_cons] at *
      first
      | exact this
      | (rw [this]; exact hone.2.2)

theorem C2_orbit_wheel_floor_witness :
    (baseState.cameraTranslated = false
      ∧ (1:ℚ)/25 ≤ distSq baseState.cameraPos baseState.target)
    ∧ (1/25 ≤ distSq (onWheelTicks baseState [(⟨-1, -1, -1⟩, true)]).cameraPos
          (onWheelTicks baseState [(⟨-1, -1, -1⟩, true)]).target
      ∧ (onWheelTicks baseState [(⟨-1, -1, -1⟩, true)]).cameraTranslated = false
      ∧ (onWheelTicks baseState [(⟨-1, -1, -1⟩, true)]).target = baseState.target
      ∧ onWheel { baseState with cameraPos := ⟨1/5, 0, 0⟩ } ⟨1, 0, 0⟩ false
          = { baseState with cameraPos := ⟨1/5, 0, 0⟩ }) :=
  ⟨⟨rfl, by norm_num [distSq, Vec3.normSq, Vec3.sub, baseState]⟩,
   C2_orbit_wheel_floor baseState [(⟨-1, -1, -1⟩, true)]
     { baseState with cameraPos := ⟨1/5, 0, 0⟩ } ⟨1, 0, 0⟩ false
     rfl (by norm_num [distSq, Vec3.normSq, Vec3.sub, baseState]) rfl
     (by norm_num [distSq, Vec3.normSq, Vec3.sub, Vec3.add, Vec3.smul, wheelMove,
        baseState])⟩

/-- C5: selecting a present word — via pointCameraAtWord, the resolved
single-click path, or the resolved double-click path — sets the camera
to orbit mode (cameraTranslated false) and starts a 600ms target-only
animation from the current orbit target to the word's position, whose
every frame interpolates only the target along the ease-in/ease-out
curve and leaves the camera position untouched; the easing curve is not
linear. -/
theorem C5_select_orbit_target_animation (s : VizState) (w : String) (wd : VisObj)
    (elapsed : ℚ) (h : mapGet s.wordObjects w = some wd) :
    (pointCameraAtWord s w).1.cameraTranslated = false
    ∧ (pointCameraAtWord s w).1.cameraPos = s.cameraPos
    ∧ (pointCameraAtWord s w).1.target = s.target
    ∧ (pointCameraAtWord s w).2 = some ⟨s.target, wd.point.pos, 600⟩
    ∧ (animFrame (pointCameraAtWord s w).1 ⟨s.target, wd.point.pos, 600⟩
        elapsed).cameraPos = s.cameraPos
    ∧ (animFrame (pointCameraAtWord s w).1 ⟨s.target, wd.point.pos, 600⟩
        elapsed).target
      = lerpVec s.target wd.point.pos (easeInOut (min (elapsed / 600) 1))
    ∧ handleSingleClickResolved s (some w) = pointCameraAtWord s w
    ∧ (handleDoubleClickResolved s (some w)).1.cameraTranslated = false
    ∧ (handleDoubleClickResolved s (some w)).1.cameraPos = s.cameraPos
    ∧ (handleDoubleClickResolved s (some w)).2 = some ⟨s.target, wd.point.pos, 600⟩
    ∧ easeInOut (1/4) ≠ 1/4 := by
  have hd :
      handleDoubleClickResolved s (some w)
        = pointCameraAtWord
            { s with cameraTranslated := false, initialCameraPos := s.cameraPos,
                     initialCameraTarget :=
                       ((s.scene.find? (fun o => o.id = wd.sphere)).map
                         (fun o => o.pos)).getD ⟨0, 0, 0⟩ } w := by
    simp only [handleDoubleClickResolved, h]
  refine ⟨?_, ?_, ?_, ?_, ?_, ?_, ?_, ?_, ?_, ?_, ?_⟩
  · simp only [pointCameraAtWord, h]
  · simp only [pointCameraAtWord, h]
  · simp only [pointCameraAtWord, h]
  · simp only [pointCameraAtWord, h, animateCameraTarget]
  · simp only [animFrame, pointCameraAtWord, h]
  · simp only [pointCameraAtWord, h, animFrame]
  · simp only [handleSingleClickResolved]
  · rw [hd]; simp only [pointCameraAtWord, h]
  · rw [hd]; simp only [pointCameraAtWord, h]
  · rw [hd]; simp only [pointCameraAtWord, h, animateCameraTarget]
  · norm_num [easeInOut]

theorem C5_select_orbit_target_animation_witness :
    (mapGet oneNeighborState.wordObjects "queen"
        = some ⟨0, 3, ⟨"queen", 1, 2, 0, false, false, true⟩, Glow.pair 1 2⟩)
    ∧ ((pointCameraAtWord oneNeighborState "queen").1.cameraTranslated = false
      ∧ (pointCameraAtWord oneNeighborState "queen").1.cameraPos
          = oneNeighborState.cameraPos
      ∧ (pointCameraAtWord oneNeighborState "queen").1.target = oneNeighborState.target
      ∧ (pointCameraAtWord oneNeighborState "queen").2
          = some ⟨oneNeighborState.target, ⟨1, 2, 0⟩, 600⟩
      ∧ (animFrame (pointCameraAtWord oneNeighborState "queen").1
          ⟨oneNeighborState.target, ⟨1, 2, 0⟩, 600⟩ 150).cameraPos
          = oneNeighborState.cameraPos
      ∧ (animFrame (pointCameraAtWord oneNeighborState "queen").1
          ⟨oneNeighborState.target, ⟨1, 2, 0⟩, 600⟩ 150).target
          = lerpVec oneNeighborState.target ⟨1, 2, 0⟩ (easeInOut (min (150 / 600) 1))
      ∧ handleSingleClickResolved oneNeighborState (some "queen")
          = pointCameraAtWord oneNeighborState "queen"
      ∧ (handleDoubleClickResolved oneNeighborState (some "queen")).1.cameraTranslated
          = false
      ∧ (handleDoubleClickResolved oneNeighborState (some "queen")).1.cameraPos
          = oneNeighborState.cameraPos
      ∧ (handleDoubleClickResolved oneNeighborState (some "queen")).2
          = some ⟨oneNeighborState.target, ⟨1, 2, 0⟩, 600⟩
      ∧ easeInOut (1/4) ≠ 1/4) :=
  ⟨rfl, C5_select_orbit_target_animation oneNeighborState "queen"
    ⟨0, 3, ⟨"queen", 1, 2, 0, false, false, true⟩, Glow.pair 1 2⟩ 150 rfl⟩

/-- C7: an aligned-progressive ingestion whose anchor word has no
visual object in the map behaves exactly as the unaligned progressive
append on the same data: the whole batch is still processed, nothing
fails. -/
theorem C7_aligned_fallback (ext : ExtMath) (s : VizState)
    (data : Option (List Point)) (anchorWord : String)
    (h : mapGet s.wordObjects anchorWord = Option.none) :
    addWordsProgressivelyAligned ext s data anchorWord
      = addWordsProgressively ext s data := by
  match data with
  | Option.none => rfl
  | some points =>
    by_cases hp : points.isEmpty
    · simp only [addWordsProgressivelyAligned, addWordsProgressively, hp, if_true]
    · simp only [addWordsProgressivelyAligned, hp, Bool.false_eq_true, if_false, h]

theorem C7_aligned_fallback_witness :
    (mapGet baseState.wordObjects "king" = Option.none)
    ∧ addWordsProgressivelyAligned extZero baseState
        (some [⟨"queen", 1, 2, 3, false, false, true⟩]) "king"
      = addWordsProgressively extZero baseState
        (some [⟨"queen", 1, 2, 3, false, false, true⟩]) :=
  ⟨rfl, C7_aligned_fallback extZero baseState
    (some [⟨"queen", 1, 2, 3, false, false, true⟩]) "king" rfl⟩

/-! ### Word-map lemmas -/

theorem mapGet_mapSet_self (m : List (String × VisObj)) (k : String) (v : VisObj) :
    mapGet (mapSet m k v) k = some v := by
  unfold mapSet
  split
  case isTrue hs =>
    induction m with
    | nil => simp [mapGet] at hs
    | cons e rest ih =>
      by_cases he : e.1 = k
      · simp [mapGet, he]
      · simp only [mapGet, he, if_false] at hs
        simp only [List.map_cons, mapGet, he, if_false]
        exact ih hs
  case isFalse hs =>
    induction m with
    | nil => simp [mapGet]
    | cons e rest ih =>
      by_cases he : e.1 = k
      · exact absurd (by simp [mapGet, he]) hs
      · simp only [mapGet, he, if_false] at hs
        simp only [List.cons_append, mapGet, he, if_false]
        exact ih hs

theorem mapGet_mapSet_ne (m : List (String × VisObj)) (k : String) (v : VisObj)
    (w : String) (h : k ≠ w) : mapGet (mapSet m k v) w = mapGet m w := by
  unfold mapSet
  split
  case isTrue hs =>
    induction m with
    | nil => rfl
    | cons e rest ih =>
      by_cases he : e.1 = k
      · simp only [List.map_cons, he, if_true, mapGet]
        rw [if_neg h, if_neg (he ▸ h)]
        by_cases hrest : (mapGet rest k).isSome
        · exact ih hrest
        · -- the tail holds no k, so the replace map fixes every tail entry
          clear ih hs
          induction rest with
          | nil => rfl
          | cons e2 r2 ih2 =>
            by_cases he2 : e2.1 = k
            · exact absurd (by simp [mapGet, he2]) hrest
            · simp only [mapGet, he2, if_false] at hrest
              simp only [List.map_cons, he2, if_false, mapGet]
              rw [ih2 hrest]
      · simp only [mapGet, he, if_false] at hs
        simp only [List.map_cons, he, if_false, mapGet]
        by_cases hw : e.1 = w
        · simp [hw]
        · simp only [hw, if_false]
          exact ih hs
  case isFalse hs =>
    induction m with
    | nil => simp [mapGet, h]
    | cons e rest ih =>
      by_cases he : e.1 = k
      · exact absurd (by simp [mapGet, he]) hs
      · simp only [mapGet, he, if_false] at hs
        simp only [List.cons_append, mapGet]
        by_cases hw : e.1 = w
        · simp [hw]
        · simp only [hw, if_false]
          exact ih hs

theorem mapGet_isSome_iff_mem (m : List (String × VisObj)) (k : String) :
    (mapGet m k).isSome = true ↔ k ∈ mapKeys m := by
  induction m with
  | nil => simp [mapGet, mapKeys]
  | cons e rest ih =>
    unfold mapKeys at ih ⊢
    by_cases he : e.1 = k
    · simp [mapGet, he]
    · simp only [mapGet, he, if_false, List.map_cons, List.mem_cons]
      rw [ih]
      constructor
      · exact Or.inr
      · rintro (h | h)
        · exact absurd h.symm he
        · exact h

theorem mapKeys_mapSet (m : List (String × VisObj)) (k : String) (v : VisObj) :
    mapKeys (mapSet m k v) = if (mapGet m k).isSome then mapKeys m
      else mapKeys m ++ [k] := by
  unfold mapSet
  split
  case isTrue hs =>
    unfold mapKeys
    rw [List.map_map]
    refine List.map_congr_left ?_
    intro e _
    by_cases he : e.1 = k
    · simp [he]
    · simp [he]
  case isFalse hs =>
    simp [mapKeys]

theorem nodupKeys_mapSet (m : List (String × VisObj)) (k : String) (v : VisObj)
    (h : nodupKeys m) : nodupKeys (mapSet m k v) := by
  unfold nodupKeys
  rw [mapKeys_mapSet]
  split
  case isTrue => exact h
  case isFalse hs =>
    rw [List.nodup_append]
    refine ⟨h, List.nodup_singleton k, ?_⟩
    intro a ha hb
    rw [List.mem_singleton] at hb
    subst hb
    rw [← mapGet_isSome_iff_mem] at ha
    simp [ha] at hs

theorem count_mapKeys_eq_one (m : List (String × VisObj)) (k : String)
    (hnd : nodupKeys m) (hmem : k ∈ mapKeys m) : (mapKeys m).count k = 1 :=
  List.count_eq_one_of_mem hnd hmem

/-! ### Per-operation lemmas -/

theorem createOtherWord_get_self (ext : ExtMath) (s : VizState) (p : Point) :
    ∃ v, mapGet (createOtherWord ext s p).wordObjects p.word = some v
      ∧ v.point = p := by
  unfold createOtherWord
  exact ⟨_, mapGet_mapSet_self _ _ _, rfl⟩

theorem createOtherWord_get_ne (ext : ExtMath) (s : VizState) (p : Point)
    (w : String) (h : p.word ≠ w) :
    mapGet (createOtherWord ext s p).wordObjects w = mapGet s.wordObjects w := by
  unfold createOtherWord
  exact mapGet_mapSet_ne _ _ _ _ h

theorem createOtherWord_cam (ext : ExtMath) (s : VizState) (p : Point) :
    (createOtherWord ext s p).cameraPos = s.cameraPos
    ∧ (createOtherWord ext s p).target = s.target
    ∧ (createOtherWord ext s p).cameraTranslated = s.cameraTranslated := by
  exact ⟨rfl, rfl, rfl⟩

theorem createOtherWord_scene_mem (ext : ExtMath) (s : VizState) (p : Point)
    (o : SceneObj) (h : o ∈ s.scene) : o ∈ (createOtherWord ext s p).scene := by
  unfold createOtherWord
  simp only [List.append_assoc, List.mem_append]
  exact Or.inl h

theorem createOtherWord_nodupKeys (ext : ExtMath) (s : VizState) (p : Point)
    (h : nodupKeys s.wordObjects) : nodupKeys (createOtherWord ext s p).wordObjects := by
  unfold createOtherWord
  exact nodupKeys_mapSet _ _ _ h

theorem createBaseWord_get_self (s : VizState) (p : Point) :
    ∃ v, mapGet (createBaseWord s p).wordObjects p.word = some v ∧ v.point = p := by
  unfold createBaseWord clearAllGlowSpheres
  exact ⟨_, mapGet_mapSet_self _ _ _, rfl⟩

theorem createBaseWord_get_ne (s : VizState) (p : Point) (w : String)
    (h : p.word ≠ w) :
    mapGet (createBaseWord s p).wordObjects w = mapGet s.wordObjects w := by
  unfold createBaseWord clearAllGlowSpheres
  exact mapGet_mapSet_ne _ _ _ _ h

theorem createBaseWord_nodupKeys (s : VizState) (p : Point)
    (h : nodupKeys s.wordObjects) : nodupKeys (createBaseWord s p).wordObjects := by
  unfold createBaseWord clearAllGlowSpheres
  exact nodupKeys_mapSet _ _ _ h

theorem centerOnBaseWord_wordObjects (s : VizState) (p : Point) :
    (centerOnBaseWord s p).wordObjects = s.wordObjects := rfl

theorem createCurrentMixPoint_get_self (s : VizState) (p : Point) :
    ∃ v, mapGet (createCurrentMixPoint s p).wordObjects "current_mix" = some v
      ∧ v.point = p := by
  unfold createCurrentMixPoint
  exact ⟨_, mapGet_mapSet_self _ _ _, rfl⟩

theorem createCurrentMixPoint_get_ne (s : VizState) (p : Point) (w : String)
    (h : "current_mix" ≠ w) :
    mapGet (createCurrentMixPoint s p).wordObjects w = mapGet s.wordObjects w := by
  unfold createCurrentMixPoint
  exact mapGet_mapSet_ne _ _ _ _ h

theorem createCurrentMixPoint_cam (s : VizState) (p : Point) :
    (createCurrentMixPoint s p).cameraPos = s.cameraPos
    ∧ (createCurrentMixPoint s p).target = s.target
    ∧ (createCurrentMixPoint s p).cameraTranslated = s.cameraTranslated :=
  ⟨rfl, rfl, rfl⟩

theorem createCurrentMixPoint_scene_mem (s : VizState) (p : Point)
    (o : SceneObj) (h : o ∈ s.scene) : o ∈ (createCurrentMixPoint s p).scene := by
  unfold createCurrentMixPoint
  simp only [List.mem_append]
  exact Or.inl h

theorem createCurrentMixPoint_nodupKeys (s : VizState) (p : Point)
    (h : nodupKeys s.wordObjects) :
    nodupKeys (createCurrentMixPoint s p).wordObjects := by
  unfold createCurrentMixPoint
  exact nodupKeys_mapSet _ _ _ h

/-! ### Lemmas about the progressive creation loop -/

theorem foldl_ingest_get_preserved (ext : ExtMath) (f : Point → Point)
    (hf : ∀ q, (f q).word = q.word) (pts : List Point) :
    ∀ (s : VizState) (w : String) (v : VisObj),
      mapGet s.wordObjects w = some v →
      mapGet ((pts.foldl (ingestStep ext f) s)).wordObjects w = some v := by
  induction pts with
  | nil => intro s w v h; exact h
  | cons q rest ih =>
    intro s w v h
    simp only [List.foldl_cons]
    refine ih _ _ _ ?_
    unfold ingestStep
    by_cases hq : hasWord s q.word
    · rw [if_pos hq]; exact h
    · rw [if_neg hq]
      rw [createOtherWord_get_ne]
      · exact h
      · rw [hf q]
        intro he
        rw [he] at hq
        exact hq (by simp [hasWord, h])

theorem foldl_ingest_hasWord_mono (ext : ExtMath) (f : Point → Point)
    (hf : ∀ q, (f q).word = q.word) (pts : List Point) (s : VizState) (w : String)
    (h : hasWord s w = true) :
    hasWord (pts.foldl (ingestStep ext f) s) w = true := by
  unfold hasWord at h ⊢
  rcases Option.isSome_iff_exists.mp h with ⟨v, hv⟩
  rw [foldl_ingest_get_preserved ext f hf pts s w v hv]
  rfl

theorem foldl_ingest_hasWord_of_not_mem (ext : ExtMath) (f : Point → Point)
    (hf : ∀ q, (f q).word = q.word) (pts : List Point) :
    ∀ (s : VizState) (w : String), hasWord s w = false →
      ¬ w ∈ pts.map Point.word →
      hasWord (pts.foldl (ingestStep ext f) s) w = false := by
  induction pts with
  | nil => intro s w h _; exact h
  | cons q rest ih =>
    intro s w h hmem
    simp only [List.map_cons, List.mem_cons, not_or] at hmem
    simp only [List.foldl_cons]
    refine ih _ _ ?_ hmem.2
    unfold ingestStep
    by_cases hq : hasWord s q.word
    · rw [if_pos hq]; exact h
    · rw [if_neg hq]
      unfold hasWord at h ⊢
      rw [createOtherWord_get_ne]
      · exact h
      · rw [hf q]
        exact fun he => hmem.1 he.symm

theorem foldl_ingest_creates (ext : ExtMath) (f : Point → Point)
    (hf : ∀ q, (f q).word = q.word) (pts : List Point) :
    ∀ (s : VizState) (p : Point), p ∈ pts → (pts.map Point.word).Nodup →
      hasWord s p.word = false →
      ∃ v, mapGet ((pts.foldl (ingestStep ext f) s)).wordObjects p.word = some v
        ∧ v.point = f p := by
  induction pts with
  | nil => intro s p hp; exact absurd hp (List.not_mem_nil p)
  | cons q rest ih =>
    intro s p hp hnd hnew
    simp only [List.map_cons, List.nodup_cons] at hnd
    simp only [List.foldl_cons]
    rcases List.mem_cons.mp hp with rfl | hp2
    · -- p is created by this very step and survives the rest of the loop
      have hstep : ingestStep ext f s p = createOtherWord ext s (f p) := by
        unfold ingestStep; rw [if_neg (by simp [hnew])]
      rw [hstep]
      rcases createOtherWord_get_self ext s (f p) with ⟨v, hv, hvp⟩
      rw [hf p] at hv
      exact ⟨v, foldl_ingest_get_preserved ext f hf rest _ _ _ hv, hvp⟩
    · -- p comes later; this step cannot create or shadow p.word
      have hqp : q.word ≠ p.word := by
        intro he
        exact hnd.1 (he ▸ List.mem_map_of_mem Point.word hp2)
      refine ih _ _ hp2 hnd.2 ?_
      unfold ingestStep
      by_cases hq : hasWord s q.word
      · rw [if_pos hq]; exact hnew
      · rw [if_neg hq]
        unfold hasWord at hnew ⊢
        rw [createOtherWord_get_ne _ _ _ _ (by rw [hf q]; exact hqp)]
        exact hnew

theorem foldl_ingest_cam (ext : ExtMath) (f : Point → Point) (pts : List Point) :
    ∀ s : VizState,
      (pts.foldl (ingestStep ext f) s).cameraPos = s.cameraPos
      ∧ (pts.foldl (ingestStep ext f) s).target = s.target
      ∧ (pts.foldl (ingestStep ext f) s).cameraTranslated = s.cameraTranslated := by
  induction pts with
  | nil => intro s; exact ⟨rfl, rfl, rfl⟩
  | cons q rest ih =>
    intro s
    simp only [List.foldl_cons]
    have h2 := ih (ingestStep ext f s q)
    have h1 : (ingestStep ext f s q).cameraPos = s.cameraPos
        ∧ (ingestStep ext f s q).target = s.target
        ∧ (ingestStep ext f s q).cameraTranslated = s.cameraTranslated := by
      unfold ingestStep
      split
      · exact ⟨rfl, rfl, rfl⟩
      · exact createOtherWord_cam ext s (f q)
    exact ⟨h2.1.trans h1.1, h2.2.1.trans h1.2.1, h2.2.2.trans h1.2.2⟩

theorem foldl_ingest_scene_mem (ext : ExtMath) (f : Point → Point) (pts : List Point) :
    ∀ (s : VizState) (o : SceneObj), o ∈ s.scene →
      o ∈ (pts.foldl (ingestStep ext f) s).scene := by
  induction pts with
  | nil => intro s o h; exact h
  | cons q rest ih =>
    intro s o h
    simp only [List.foldl_cons]
    refine ih _ _ ?_
    unfold ingestStep
    split
    · exact h
    · exact createOtherWord_scene_mem ext s (f q) o h

theorem foldl_ingest_all_has (ext : ExtMath) (f : Point → Point)
    (hf : ∀ q, (f q).word = q.word) (pts : List Point) :
    ∀ (s : VizState) (p : Point), p ∈ pts →
      hasWord (pts.foldl (ingestStep ext f) s) p.word = true := by
  induction pts with
  | nil => intro s p hp; exact absurd hp (List.not_mem_nil p)
  | cons q rest ih =>
    intro s p hp
    simp only [List.foldl_cons]
    rcases List.mem_cons.mp hp with rfl | hp2
    · refine foldl_ingest_hasWord_mono ext f hf rest _ _ ?_
      unfold ingestStep
      by_cases hq : hasWord s p.word
      · rw [if_pos hq]; exact hq
      · rw [if_neg hq]
        unfold hasWord
        rcases createOtherWord_get_self ext s (f p) with ⟨v, hv, -⟩
        rw [hf p] at hv
        simp [hv]
    · exact ih _ _ hp2

theorem foldl_ingest_id_of_all_has (ext : ExtMath) (f : Point → Point)
    (pts : List Point) :
    ∀ s : VizState, (∀ p ∈ pts, hasWord s p.word = true) →
      pts.foldl (ingestStep ext f) s = s := by
  induction pts with
  | nil => intro s _; rfl
  | cons q rest ih =>
    intro s hall
    simp only [List.foldl_cons]
    have hstep : ingestStep ext f s q = s := by
      unfold ingestStep
      rw [if_pos (hall q (List.mem_cons_self q rest))]
    rw [hstep]
    exact ih s (fun p hp => hall p (List.mem_cons_of_mem q hp))

theorem foldl_ingest_nodupKeys (ext : ExtMath) (f : Point → Point) (pts : List Point) :
    ∀ s : VizState, nodupKeys s.wordObjects →
      nodupKeys (pts.foldl (ingestStep ext f) s).wordObjects := by
  induction pts with
  | nil => intro s h; exact h
  | cons q rest ih =>
    intro s h
    simp only [List.foldl_cons]
    refine ih _ ?_
    unfold ingestStep
    split
    · exact h
    · exact createOtherWord_nodupKeys ext s (f q) h

/-- Preservation of an existing map entry across the mix-marker step of
the progressive appends. -/
theorem mixStep_get_preserved (s2 : VizState) (mq : Point) (w : String) (v : VisObj)
    (hv : mapGet s2.wordObjects w = some v) :
    mapGet (if hasWord s2 "current_mix" then s2
            else createCurrentMixPoint s2 mq).wordObjects w = some v := by
  split
  · exact hv
  case isFalse hcm =>
    by_cases hw : w = "current_mix"
    · subst hw
      exact absurd (by simp [hasWord, hv]) hcm
    · rw [createCurrentMixPoint_get_ne _ _ _ (fun he => hw he.symm)]
      exact hv

/-- C4 counterexample: a ProgressiveAppend batch whose base word is not
yet present does move the camera: createBaseWord is followed by
centerOnBaseWord, which repositions the camera onto the new base word,
so the camera position is not left unchanged by the call. -/
theorem C4_counterexample :
    (addWordsProgressively extZero baseState
        (some [⟨"king", 1, 0, 0, true, false, false⟩])).cameraPos
      ≠ baseState.cameraPos
    ∧ (addWordsProgressively extZero baseState
        (some [⟨"king", 1, 0, 0, true, false, false⟩])).target
      ≠ baseState.target := by
  have hres : addWordsProgressively extZero baseState
      (some [⟨"king", 1, 0, 0, true, false, false⟩])
      = centerOnBaseWord (createBaseWord baseState ⟨"king", 1, 0, 0, true, false, false⟩)
          ⟨"king", 1, 0, 0, true, false, false⟩ := by
    simp [addWordsProgressively, findBasePoint, otherWordsOf, findMixPoint,
      List.find?, List.filter, hasWord, mapGet, baseState]
  rw [hres]
  constructor
  · intro h
    have := congrArg Vec3.x h
    simp [centerOnBaseWord, createBaseWord, clearAllGlowSpheres, Point.pos,
      Vec3.add, baseState] at this
  · intro h
    have := congrArg Vec3.x h
    simp [centerOnBaseWord, createBaseWord, clearAllGlowSpheres, Point.pos,
      Vec3.add, baseState] at this

/-- C4 amended: a ProgressiveAppend ingestion never repositions an
already-present visual object (its map entry and its rendered objects
are untouched) and creates every new non-base non-mix point, and the mix
marker, at exactly the reported coordinates; the camera position and
orbit target are left unchanged provided the batch does not introduce a
new base word — a batch whose base word is absent recenters the camera
on it via centerOnBaseWord. -/
theorem C4_progressive_append_stable (ext : ExtMath) (s : VizState)
    (pts : List Point) (q mp : Point) (w : String) (v : VisObj) (o : SceneObj)
    (hbase : ∀ bp, findBasePoint pts = some bp → hasWord s bp.word = true)
    (hnd : (pts.map Point.word).Nodup)
    (hmixkey : ¬ "current_mix" ∈ (otherWordsOf pts).map Point.word)
    (hq : q ∈ otherWordsOf pts) (hqnew : hasWord s q.word = false)
    (hv : mapGet s.wordObjects w = some v) (ho : o ∈ s.scene) :
    (addWordsProgressively ext s (some pts)).cameraPos = s.cameraPos
    ∧ (addWordsProgressively ext s (some pts)).target = s.target
    ∧ (addWordsProgressively ext s (some pts)).cameraTranslated = s.cameraTranslated
    ∧ mapGet (addWordsProgressively ext s (some pts)).wordObjects w = some v
    ∧ o ∈ (addWordsProgressively ext s (some pts)).scene
    ∧ (∃ v2, mapGet (addWordsProgressively ext s (some pts)).wordObjects q.word
        = some v2 ∧ v2.point = q)
    ∧ (findMixPoint pts = some mp → hasWord s "current_mix" = false →
        ∃ v3, mapGet (addWordsProgressively ext s (some pts)).wordObjects "current_mix"
          = some v3 ∧ v3.point = mp) := by
  have hid : ∀ r : Point, ((fun p => p) r).word = r.word := fun _ => rfl
  have hqpts : q ∈ pts := List.mem_of_mem_filter hq
  have hne : pts.isEmpty = false := by
    rcases pts with - | ⟨a, rest⟩
    · exact absurd hqpts (List.not_mem_nil q)
    · rfl
  have hndo : ((otherWordsOf pts).map Point.word).Nodup :=
    ((List.filter_sublist pts).map Point.word).nodup hnd
  have hcam2 := foldl_ingest_cam ext (fun p => p) (otherWordsOf pts) s
  have hcreate := foldl_ingest_creates ext (fun p => p) hid (otherWordsOf pts) s q hq
    hndo hqnew
  rcases hfb : findBasePoint pts with - | bp <;>
    rcases hm : findMixPoint pts with - | mq <;>
    simp only [addWordsProgressively, hne, Bool.false_eq_true, if_false, hfb, hm,
      hbase, if_true]
  case none.none =>
    refine ⟨hcam2.1, hcam2.2.1, hcam2.2.2,
      foldl_ingest_get_preserved ext _ hid _ _ _ _ hv,
      foldl_ingest_scene_mem ext _ _ _ _ ho, hcreate, ?_⟩
    intro hm2
    exact absurd hm2 (by simp)
  case some.none =>
    refine ⟨hcam2.1, hcam2.2.1, hcam2.2.2,
      foldl_ingest_get_preserved ext _ hid _ _ _ _ hv,
      foldl_ingest_scene_mem ext _ _ _ _ ho, hcreate, ?_⟩
    intro hm2
    exact absurd hm2 (by simp)
  case none.some =>
    refine ⟨?_, ?_, ?_, ?_, ?_, ?_, ?_⟩
    · split
      · exact hcam2.1
      · exact ((createCurrentMixPoint_cam _ _).1).trans hcam2.1
    · split
      · exact hcam2.2.1
      · exact ((createCurrentMixPoint_cam _ _).2.1).trans hcam2.2.1
    · split
      · exact hcam2.2.2
      · exact ((createCurrentMixPoint_cam _ _).2.2).trans hcam2.2.2
    · exact mixStep_get_preserved _ mq w v
        (foldl_ingest_get_preserved ext _ hid _ _ _ _ hv)
    · split
      · exact foldl_ingest_scene_mem ext _ _ _ _ ho
      · exact createCurrentMixPoint_scene_mem _ _ _
          (foldl_ingest_scene_mem ext _ _ _ _ ho)
    · rcases hcreate with ⟨v2, hv2, hv2p⟩
      exact ⟨v2, mixStep_get_preserved _ mq q.word v2 hv2, hv2p⟩
    · intro hm2 hnew2
      injection hm2 with hm2
      subst hm2
      have hcm2 : hasWord ((otherWordsOf pts).foldl (ingestStep ext (fun p => p)) s)
          "current_mix" = false :=
        foldl_ingest_hasWord_of_not_mem ext _ hid _ _ _ hnew2 hmixkey
      rw [if_neg (by simp [hcm2])]
      exact createCurrentMixPoint_get_self _ _
  case some.some =>
    refine ⟨?_, ?_, ?_, ?_, ?_, ?_, ?_⟩
    · split
      · exact hcam2.1
      · exact ((createCurrentMixPoint_cam _ _).1).trans hcam2.1
    · split
      · exact hcam2.2.1
      · exact ((createCurrentMixPoint_cam _ _).2.1).trans hcam2.2.1
    · split
      · exact hcam2.2.2
      · exact ((createCurrentMixPoint_cam _ _).2.2).trans hcam2.2.2
    · exact mixStep_get_preserved _ mq w v
        (foldl_ingest_get_preserved ext _ hid _ _ _ _ hv)
    · split
      · exact foldl_ingest_scene_mem ext _ _ _ _ ho
      · exact createCurrentMixPoint_scene_mem _ _ _
          (foldl_ingest_scene_mem ext _ _ _ _ ho)
    · rcases hcreate with ⟨v2, hv2, hv2p⟩
      exact ⟨v2, mixStep_get_preserved _ mq q.word v2 hv2, hv2p⟩
    · intro hm2 hnew2
      injection hm2 with hm2
      subst hm2
      have hcm2 : hasWord ((otherWordsOf pts).foldl (ingestStep ext (fun p => p)) s)
          "current_mix" = false :=
        foldl_ingest_hasWord_of_not_mem ext _ hid _ _ _ hnew2 hmixkey
      rw [if_neg (by simp [hcm2])]
      exact createCurrentMixPoint_get_self _ _


theorem C4_progressive_append_stable_witness :
    ((addWordsProgressively extZero oneWordState
        (some [⟨"king", 0, 0, 0, true, false, false⟩,
               ⟨"queen", 1, 2, 0, false, false, true⟩,
               ⟨"mixy", 3, 3, 3, false, true, false⟩])).cameraPos
        = oneWordState.cameraPos)
    ∧ ((addWordsProgressively extZero oneWordState
        (some [⟨"king", 0, 0, 0, true, false, false⟩,
               ⟨"queen", 1, 2, 0, false, false, true⟩,
               ⟨"mixy", 3, 3, 3, false, true, false⟩])).target = oneWordState.target)
    ∧ ((addWordsProgressively extZero oneWordState
        (some [⟨"king", 0, 0, 0, true, false, false⟩,
               ⟨"queen", 1, 2, 0, false, false, true⟩,
               ⟨"mixy", 3, 3, 3, false, true, false⟩])).cameraTranslated
        = oneWordState.cameraTranslated)
    ∧ (mapGet (addWordsProgressively extZero oneWordState
        (some [⟨"king", 0, 0, 0, true, false, false⟩,
               ⟨"queen", 1, 2, 0, false, false, true⟩,
               ⟨"mixy", 3, 3, 3, false, true, false⟩])).wordObjects "king"
        = some ⟨0, 1, ⟨"king", 0, 0, 0, true, false, false⟩, Glow.none⟩)
    ∧ (createWordSphere 0 ⟨0, 0, 0⟩ 0xff0000 (1/25)
        ∈ (addWordsProgressively extZero oneWordState
        (some [⟨"king", 0, 0, 0, true, false, false⟩,
               ⟨"queen", 1, 2, 0, false, false, true⟩,
               ⟨"mixy", 3, 3, 3, false, true, false⟩])).scene)
    ∧ (∃ v2, mapGet (addWordsProgressively extZero oneWordState
        (some [⟨"king", 0, 0, 0, true, false, false⟩,
               ⟨"queen", 1, 2, 0, false, false, true⟩,
               ⟨"mixy", 3, 3, 3, false, true, false⟩])).wordObjects "queen" = some v2
        ∧ v2.point = ⟨"queen", 1, 2, 0, false, false, true⟩)
    ∧ (findMixPoint [⟨"king", 0, 0, 0, true, false, false⟩,
               ⟨"queen", 1, 2, 0, false, false, true⟩,
               ⟨"mixy", 3, 3, 3, false, true, false⟩]
        = some ⟨"mixy", 3, 3, 3, false, true, false⟩ →
       hasWord oneWordState "current_mix" = false →
        ∃ v3, mapGet (addWordsProgressively extZero oneWordState
        (some [⟨"king", 0, 0, 0, true, false, false⟩,
               ⟨"queen", 1, 2, 0, false, false, true⟩,
               ⟨"mixy", 3, 3, 3, false, true, false⟩])).wordObjects "current_mix"
          = some v3 ∧ v3.point = ⟨"mixy", 3, 3, 3, false, true, false⟩) :=
  C4_progressive_append_stable extZero oneWordState
    [⟨"king", 0, 0, 0, true, false, false⟩,
     ⟨"queen", 1, 2, 0, false, false, true⟩,
     ⟨"mixy", 3, 3, 3, false, true, false⟩]
    ⟨"queen", 1, 2, 0, false, false, true⟩ ⟨"mixy", 3, 3, 3, false, true, false⟩
    "king" ⟨0, 1, ⟨"king", 0, 0, 0, true, false, false⟩, Glow.none⟩
    (createWordSphere 0 ⟨0, 0, 0⟩ 0xff0000 (1/25))
    (by
      intro bp h
      rw [show findBasePoint [⟨"king", 0, 0, 0, true, false, false⟩,
            ⟨"queen", 1, 2, 0, false, false, true⟩,
            ⟨"mixy", 3, 3, 3, false, true, false⟩]
          = some ⟨"king", 0, 0, 0, true, false, false⟩ from rfl] at h
      injection h with h
      subst h
      rfl)
    (by decide)
    (by decide)
    (by
      rw [show otherWordsOf [⟨"king", 0, 0, 0, true, false, false⟩,
            ⟨"queen", 1, 2, 0, false, false, true⟩,
            ⟨"mixy", 3, 3, 3, false, true, false⟩]
          = [⟨"queen", 1, 2, 0, false, false, true⟩] from rfl]
      exact List.mem_singleton.mpr rfl)
    rfl rfl (List.mem_cons_self _ _)

theorem mixStep_hasWord_mono (s2 : VizState) (mq : Point) (w : String)
    (h : hasWord s2 w = true) :
    hasWord (if hasWord s2 "current_mix" then s2
             else createCurrentMixPoint s2 mq) w = true := by
  unfold hasWord at h
  rcases Option.isSome_iff_exists.mp h with ⟨v, hv⟩
  have hpres := mixStep_get_preserved s2 mq w v hv
  set Y := if hasWord s2 "current_mix" then s2 else createCurrentMixPoint s2 mq with hY
  simp [hasWord, hpres]

/-- A progressive append never modifies or removes an existing map
entry: a word object present before the call is present, unchanged,
after it. -/
theorem addWordsProgressively_get_preserved (ext : ExtMath) (s : VizState)
    (data : Option (List Point)) (w : String) (v : VisObj)
    (hv : mapGet s.wordObjects w = some v) :
    mapGet (addWordsProgressively ext s data).wordObjects w = some v := by
  have hid : ∀ r : Point, ((fun p => p) r).word = r.word := fun _ => rfl
  match data with
  | Option.none => exact hv
  | some pts =>
    by_cases hp : pts.isEmpty
    · simp only [addWordsProgressively, hp, if_true]
      exact hv
    · rcases hfb : findBasePoint pts with - | bp <;>
        rcases hm : findMixPoint pts with - | mq <;>
        simp only [addWordsProgressively, hp, Bool.false_eq_true, if_false, hfb, hm]
      · exact foldl_ingest_get_preserved ext _ hid _ _ _ _ hv
      · exact mixStep_get_preserved _ mq w v
          (foldl_ingest_get_preserved ext _ hid _ _ _ _ hv)
      · split
        next => exact foldl_ingest_get_preserved ext _ hid _ _ _ _ hv
        next hb =>
          refine foldl_ingest_get_preserved ext _ hid _ _ _ _ ?_
          rw [centerOnBaseWord_wordObjects, createBaseWord_get_ne]
          · exact hv
          · intro he
            rw [he] at hb
            exact hb (by simp [hasWord, hv])
      · split
        next =>
          exact mixStep_get_preserved _ mq w v
            (foldl_ingest_get_preserved ext _ hid _ _ _ _ hv)
        next hb =>
          refine mixStep_get_preserved _ mq w v
            (foldl_ingest_get_preserved ext _ hid _ _ _ _ ?_)
          rw [centerOnBaseWord_wordObjects, createBaseWord_get_ne]
          · exact hv
          · intro he
            rw [he] at hb
            exact hb (by simp [hasWord, hv])

theorem addWordsProgressively_hasWord_mono (ext : ExtMath) (s : VizState)
    (data : Option (List Point)) (w : String) (h : hasWord s w = true) :
    hasWord (addWordsProgressively ext s data) w = true := by
  unfold hasWord at h
  rcases Option.isSome_iff_exists.mp h with ⟨v, hv⟩
  have := addWordsProgressively_get_preserved ext s data w v hv
  simp [hasWord, this]

theorem addWordsProgressively_nodupKeys (ext : ExtMath) (s : VizState)
    (data : Option (List Point)) (h : nodupKeys s.wordObjects) :
    nodupKeys (addWordsProgressively ext s data).wordObjects := by
  match data with
  | Option.none => exact h
  | some pts =>
    by_cases hp : pts.isEmpty
    · simp only [addWordsProgressively, hp, if_true]
      exact h
    · have hbase : ∀ bp, nodupKeys ((if hasWord s (Point.word bp) then s
          else centerOnBaseWord (createBaseWord s bp) bp)).wordObjects := by
        intro bp
        split
        · exact h
        · rw [centerOnBaseWord_wordObjects]
          exact createBaseWord_nodupKeys s bp h
      have hmix : ∀ (s2 : VizState) (mq : Point), nodupKeys s2.wordObjects →
          nodupKeys ((if hasWord s2 "current_mix" then s2
            else createCurrentMixPoint s2 mq)).wordObjects := by
        intro s2 mq h2
        split
        · exact h2
        · exact createCurrentMixPoint_nodupKeys s2 mq h2
      rcases hfb : findBasePoint pts with - | bp <;>
        rcases hm : findMixPoint pts with - | mq <;>
        simp only [addWordsProgressively, hp, Bool.false_eq_true, if_false, hfb, hm]
      · exact foldl_ingest_nodupKeys ext _ _ _ h
      · exact hmix _ mq (foldl_ingest_nodupKeys ext _ _ _ h)
      · exact foldl_ingest_nodupKeys ext _ _ _ (hbase bp)
      · exact hmix _ mq (foldl_ingest_nodupKeys ext _ _ _ (hbase bp))

/-- After a progressive append, the batch's base word, every non-base
non-mix word, and (when a mix point was delivered) the reserved mix key
are all present. -/
theorem addWordsProgressively_all_present (ext : ExtMath) (s : VizState)
    (pts : List Point) (hp : pts.isEmpty = false) :
    (∀ bp, findBasePoint pts = some bp →
      hasWord (addWordsProgressively ext s (some pts)) bp.word = true)
    ∧ (∀ p ∈ otherWordsOf pts,
      hasWord (addWordsProgressively ext s (some pts)) p.word = true)
    ∧ (∀ mq, findMixPoint pts = some mq →
      hasWord (addWordsProgressively ext s (some pts)) "current_mix" = true) := by
  have hid : ∀ r : Point, ((fun p => p) r).word = r.word := fun _ => rfl
  have hbase : ∀ bp, hasWord ((if hasWord s (Point.word bp) then s
      else centerOnBaseWord (createBaseWord s bp) bp)) bp.word = true := by
    intro bp
    split
    case isTrue hb => exact hb
    case isFalse hb =>
      unfold hasWord
      rw [centerOnBaseWord_wordObjects]
      rcases createBaseWord_get_self s bp with ⟨v, hv, -⟩
      simp [hv]
  have hmixcreated : ∀ (s2 : VizState) (mq : Point),
      hasWord (if hasWord s2 "current_mix" then s2
        else createCurrentMixPoint s2 mq) "current_mix" = true := by
    intro s2 mq
    split
    case isTrue hb => exact hb
    case isFalse hb =>
      unfold hasWord
      rcases createCurrentMixPoint_get_self s2 mq with ⟨v, hv, -⟩
      simp [hv]
  rcases hfb : findBasePoint pts with - | bp <;>
    rcases hm : findMixPoint pts with - | mq <;>
    simp only [addWordsProgressively, hp, Bool.false_eq_true, if_false, hfb, hm] <;>
    refine ⟨?_, ?_, ?_⟩
  · intro bp hbp; cases hbp
  · intro p hp2
    exact foldl_ingest_all_has ext _ hid _ _ _ hp2
  · intro mq hmq; cases hmq
  · intro bp hbp; cases hbp
  · intro p hp2
    exact mixStep_hasWord_mono _ mq _ (foldl_ingest_all_has ext _ hid _ _ _ hp2)
  · intro mq2 hmq
    exact hmixcreated _ mq
  · intro bp2 hbp
    injection hbp with hbp
    subst hbp
    exact foldl_ingest_hasWord_mono ext _ hid _ _ _ (hbase bp)
  · intro p hp2
    exact foldl_ingest_all_has ext _ hid _ _ _ hp2
  · intro mq hmq; cases hmq
  · intro bp2 hbp
    injection hbp with hbp
    subst hbp
    exact mixStep_hasWord_mono _ mq _
      (foldl_ingest_hasWord_mono ext _ hid _ _ _ (hbase bp))
  · intro p hp2
    exact mixStep_hasWord_mono _ mq _ (foldl_ingest_all_has ext _ hid _ _ _ hp2)
  · intro mq2 hmq
    exact hmixcreated _ mq

/-- A progressive append is idempotent as a whole: running the same
batch again changes nothing at all. -/
theorem addWordsProgressively_idem (ext : ExtMath) (s : VizState)
    (data : Option (List Point)) :
    addWordsProgressively ext (addWordsProgressively ext s data) data
      = addWordsProgressively ext s data := by
  match data with
  | Option.none => rfl
  | some pts =>
    by_cases hp : pts.isEmpty
    · simp only [addWordsProgressively, hp, if_true]
    · have hall := addWordsProgressively_all_present ext s pts
        (by simpa using hp)
      set r := addWordsProgressively ext s (some pts) with hr
      rcases hfb : findBasePoint pts with - | bp <;>
        rcases hm : findMixPoint pts with - | mq <;>
        simp only [addWordsProgressively, hp, Bool.false_eq_true, if_false, hfb, hm]
      · exact foldl_ingest_id_of_all_has ext _ _ r (fun p hp2 => hall.2.1 p hp2)
      · rw [foldl_ingest_id_of_all_has ext _ _ r (fun p hp2 => hall.2.1 p hp2)]
        rw [hall.2.2 mq hm, if_pos rfl]
      · rw [hall.1 bp hfb, if_pos rfl]
        exact foldl_ingest_id_of_all_has ext _ _ r (fun p hp2 => hall.2.1 p hp2)
      · rw [hall.1 bp hfb, if_pos rfl]
        rw [foldl_ingest_id_of_all_has ext _ _ r (fun p hp2 => hall.2.1 p hp2)]
        rw [hall.2.2 mq hm, if_pos rfl]

/-- C8: ingesting the same word across two successive ProgressiveAppend
batches is idempotent: the second ingestion leaves the word's map entry
(position, styling, handles) exactly as the first created it, the map
holds exactly one entry for the word, and re-running a whole batch —
including one carrying the reserved mix-marker key — changes nothing at
all. -/
theorem C8_idempotent_ingestion (ext1 ext2 ext3 : ExtMath) (s s0 : VizState)
    (d1 d : Option (List Point)) (pts2 : List Point) (w : String) (obj : VisObj)
    (hnd : nodupKeys s.wordObjects)
    (h1 : mapGet (addWordsProgressively ext1 s d1).wordObjects w = some obj)
    (_hw : w ∈ pts2.map Point.word) :
    mapGet (addWordsProgressively ext2 (addWordsProgressively ext1 s d1)
        (some pts2)).wordObjects w = some obj
    ∧ (mapKeys (addWordsProgressively ext2 (addWordsProgressively ext1 s d1)
        (some pts2)).wordObjects).count w = 1
    ∧ addWordsProgressively ext3 (addWordsProgressively ext3 s0 d) d
        = addWordsProgressively ext3 s0 d := by
  have hpres := addWordsProgressively_get_preserved ext2 _ (some pts2) w obj h1
  refine ⟨hpres, ?_, addWordsProgressively_idem ext3 s0 d⟩
  have hnd2 : nodupKeys (addWordsProgressively ext2 (addWordsProgressively ext1 s d1)
      (some pts2)).wordObjects :=
    addWordsProgressively_nodupKeys ext2 _ _
      (addWordsProgressively_nodupKeys ext1 _ _ hnd)
  have hmem : w ∈ mapKeys (addWordsProgressively ext2
      (addWordsProgressively ext1 s d1) (some pts2)).wordObjects :=
    (mapGet_isSome_iff_mem _ _).mp (by simp [hpres])
  exact count_mapKeys_eq_one _ _ hnd2 hmem

theorem C8_idempotent_ingestion_witness :
    mapGet (addWordsProgressively extZero
        (addWordsProgressively extZero baseState
          (some [⟨"king", 1, 2, 3, true, false, false⟩]))
        (some [⟨"king", 1, 2, 3, true, false, false⟩])).wordObjects "king"
      = some ⟨0, 1, ⟨"king", 1, 2, 3, true, false, false⟩, Glow.none⟩
    ∧ (mapKeys (addWordsProgressively extZero
        (addWordsProgressively extZero baseState
          (some [⟨"king", 1, 2, 3, true, false, false⟩]))
        (some [⟨"king", 1, 2, 3, true, false, false⟩])).wordObjects).count "king" = 1
    ∧ addWordsProgressively extZero
        (addWordsProgressively extZero baseState
          (some [⟨"king", 1, 2, 3, true, false, false⟩]))
        (some [⟨"king", 1, 2, 3, true, false, false⟩])
      = addWordsProgressively extZero baseState
          (some [⟨"king", 1, 2, 3, true, false, false⟩]) :=
  C8_idempotent_ingestion extZero extZero extZero baseState baseState
    (some [⟨"king", 1, 2, 3, true, false, false⟩])
    (some [⟨"king", 1, 2, 3, true, false, false⟩])
    [⟨"king", 1, 2, 3, true, false, false⟩] "king"
    ⟨0, 1, ⟨"king", 1, 2, 3, true, false, false⟩, Glow.none⟩
    (by simp [nodupKeys, mapKeys, baseState]) rfl (by decide)

/-! ### Lemmas for the alignment scale invariant -/

theorem le_foldl_max (g : Point → ℚ) (pts : List Point) :
    ∀ a : ℚ, a ≤ pts.foldl (fun m p => max m (g p)) a := by
  induction pts with
  | nil => intro a; exact le_refl a
  | cons q rest ih =>
    intro a
    simp only [List.foldl_cons]
    exact le_trans (le_max_left a (g q)) (ih (max a (g q)))

theorem foldl_max_mem_le (g : Point → ℚ) (pts : List Point) (p : Point)
    (hp : p ∈ pts) : ∀ a : ℚ, g p ≤ pts.foldl (fun m q => max m (g q)) a := by
  induction pts with
  | nil => exact absurd hp (List.not_mem_nil p)
  | cons q rest ih =>
    intro a
    simp only [List.foldl_cons]
    rcases List.mem_cons.mp hp with rfl | hp2
    · exact le_trans (le_max_right a (g p)) (le_foldl_max g rest (max a (g p)))
    · exact ih hp2 (max a (g q))

theorem foldl_max_le (g : Point → ℚ) (pts : List Point) (B : ℚ)
    (hB : ∀ p ∈ pts, g p ≤ B) :
    ∀ a : ℚ, a ≤ B → pts.foldl (fun m p => max m (g p)) a ≤ B := by
  induction pts with
  | nil => intro a ha; exact ha
  | cons q rest ih =>
    intro a ha
    simp only [List.foldl_cons]
    exact ih (fun p hp => hB p (List.mem_cons_of_mem q hp)) (max a (g q))
      (max_le ha (hB q (List.mem_cons_self q rest)))

/-- When the oracle is an exact square root on the batch, the computed
maxDistance is the square root of the squared distance of any point
realizing the maximum. -/
theorem maxDistOf_eq (ext : ExtMath) (c : Vec3) (pts : List Point) (p : Point)
    (hp : p ∈ pts)
    (hsq : ∀ r ∈ pts, 0 ≤ ext.sqrt (distSq r.pos c)
      ∧ (ext.sqrt (distSq r.pos c)) ^ 2 = distSq r.pos c)
    (hmax : ∀ r ∈ pts, distSq r.pos c ≤ distSq p.pos c) :
    maxDistOf ext c pts = ext.sqrt (distSq p.pos c) := by
  unfold maxDistOf
  refine le_antisymm ?_ (foldl_max_mem_le _ pts p hp 0)
  refine foldl_max_le _ pts _ ?_ 0 (hsq p hp).1
  intro r hr
  refine le_of_pow_le_pow_left₀ two_ne_zero (hsq p hp).1 ?_
  rw [(hsq r hr).2, (hsq p hp).2]
  exact hmax r hr

theorem distSq_align (k : ℚ) (v a : Vec3) :
    distSq (Vec3.add (Vec3.smul k v) a) a = k ^ 2 * Vec3.normSq v := by
  simp only [distSq, Vec3.sub, Vec3.add, Vec3.smul, Vec3.normSq]
  ring

theorem alignPoint_pos (c : Vec3) (k : ℚ) (a : Vec3) (p : Point) :
    (alignPoint c k a p).pos = Vec3.add (Vec3.smul k (Vec3.sub p.pos c)) a := by
  simp only [alignPoint, Point.pos, Vec3.add, Vec3.smul, Vec3.sub, Vec3.mk.injEq]
  refine ⟨?_, ?_, ?_⟩ <;> ring

/-- C1: in an aligned-progressive ingestion whose anchor word already
has a visual object and whose non-anchor non-marker points are not all
at one location (maxDistance > 0), every newly created non-anchor
non-marker point q is stored at
(q - centroid) * (4.0 / maxDistance) + anchorPosition, and the point p
of maximum distance from the centroid lands exactly targetRadius = 4.0
units from the anchor (squared distance 16 = 4^2), assuming the sqrt
oracle is exact on the batch's squared distances. -/
theorem C1_aligned_scale_invariant (ext : ExtMath) (s : VizState) (pts : List Point)
    (anchorWord : String) (aobj : VisObj) (p q : Point)
    (ha : mapGet s.wordObjects anchorWord = some aobj)
    (hsq : ∀ r ∈ otherWordsOf pts,
      0 ≤ ext.sqrt (distSq r.pos (centroidOf (otherWordsOf pts)))
      ∧ (ext.sqrt (distSq r.pos (centroidOf (otherWordsOf pts)))) ^ 2
        = distSq r.pos (centroidOf (otherWordsOf pts)))
    (hpos : 0 < maxDistOf ext (centroidOf (otherWordsOf pts)) (otherWordsOf pts))
    (hnd : (pts.map Point.word).Nodup)
    (hq : q ∈ otherWordsOf pts) (hqnew : hasWord s q.word = false)
    (hp : p ∈ otherWordsOf pts)
    (hmax : ∀ r ∈ otherWordsOf pts,
      distSq r.pos (centroidOf (otherWordsOf pts))
        ≤ distSq p.pos (centroidOf (otherWordsOf pts))) :
    (∃ v, mapGet (addWordsProgressivelyAligned ext s (some pts)
          anchorWord).wordObjects q.word = some v
      ∧ v.point.pos = Vec3.add (Vec3.smul
          (4 / maxDistOf ext (centroidOf (otherWordsOf pts)) (otherWordsOf pts))
          (Vec3.sub q.pos (centroidOf (otherWordsOf pts)))) aobj.point.pos)
    ∧ distSq (Vec3.add (Vec3.smul
          (4 / maxDistOf ext (centroidOf (otherWordsOf pts)) (otherWordsOf pts))
          (Vec3.sub p.pos (centroidOf (otherWordsOf pts)))) aobj.point.pos)
        aobj.point.pos = 16 := by
  have hf : ∀ r : Point,
      (alignPoint (centroidOf (otherWordsOf pts))
        (4 / maxDistOf ext (centroidOf (otherWordsOf pts)) (otherWordsOf pts))
        aobj.point.pos r).word = r.word := fun _ => rfl
  constructor
  · -- placement of a newly created point
    have hqpts : q ∈ pts := List.mem_of_mem_filter hq
    have hne : pts.isEmpty = false := by
      rcases pts with - | ⟨a, rest⟩
      · exact absurd hqpts (List.not_mem_nil q)
      · rfl
    have hndo : ((otherWordsOf pts).map Point.word).Nodup :=
      ((List.filter_sublist pts).map Point.word).nodup hnd
    have hbqgen : ∀ bp, findBasePoint pts = some bp → Point.word bp ≠ q.word := by
      intro bp hfb he
      have hbppts : bp ∈ pts := List.mem_of_find?_eq_some hfb
      have hbpbase : bp.is_base = true := by
        have := List.find?_some hfb
        simpa using this
      have hqbase : q.is_base = false := by
        have := List.of_mem_filter hq
        simp only [Bool.and_eq_true, Bool.not_eq_true'] at this
        exact this.1
      have heq : bp = q := List.inj_on_of_nodup_map hnd hbppts hqpts he
      rw [heq, hqbase] at hbpbase
      cases hbpbase
    rcases hfb : findBasePoint pts with - | bp <;>
      rcases hm : findMixPoint pts with - | mq <;>
      simp only [addWordsProgressivelyAligned, hne, Bool.false_eq_true, if_false,
        ha, hpos, if_true, hfb, hm]
    · rcases foldl_ingest_creates ext _ hf (otherWordsOf pts) s q hq hndo hqnew
        with ⟨v, hv, hvp⟩
      exact ⟨v, hv, by rw [hvp, alignPoint_pos]⟩
    · rcases foldl_ingest_creates ext _ hf (otherWordsOf pts) s q hq hndo hqnew
        with ⟨v, hv, hvp⟩
      exact ⟨v, mixStep_get_preserved _ _ _ _ hv, by rw [hvp, alignPoint_pos]⟩
    · split
      next =>
        rcases foldl_ingest_creates ext _ hf (otherWordsOf pts) s q hq hndo hqnew
          with ⟨v, hv, hvp⟩
        exact ⟨v, hv, by rw [hvp, alignPoint_pos]⟩
      next hb =>
        have hqnew1 : hasWord (createBaseWord s
            { bp with x := aobj.point.pos.x, y := aobj.point.pos.y,
                      z := aobj.point.pos.z }) q.word = false := by
          unfold hasWord
          rw [createBaseWord_get_ne _
            { bp with x := aobj.point.pos.x, y := aobj.point.pos.y,
                      z := aobj.point.pos.z } q.word (hbqgen bp hfb)]
          exact hqnew
        rcases foldl_ingest_creates ext _ hf (otherWordsOf pts) _ q hq hndo hqnew1
          with ⟨v, hv, hvp⟩
        exact ⟨v, hv, by rw [hvp, alignPoint_pos]⟩
    · split
      next =>
        rcases foldl_ingest_creates ext _ hf (otherWordsOf pts) s q hq hndo hqnew
          with ⟨v, hv, hvp⟩
        exact ⟨v, mixStep_get_preserved _ _ _ _ hv, by rw [hvp, alignPoint_pos]⟩
      next hb =>
        have hqnew1 : hasWord (createBaseWord s
            { bp with x := aobj.point.pos.x, y := aobj.point.pos.y,
                      z := aobj.point.pos.z }) q.word = false := by
          unfold hasWord
          rw [createBaseWord_get_ne _
            { bp with x := aobj.point.pos.x, y := aobj.point.pos.y,
                      z := aobj.point.pos.z } q.word (hbqgen bp hfb)]
          exact hqnew
        rcases foldl_ingest_creates ext _ hf (otherWordsOf pts) _ q hq hndo hqnew1
          with ⟨v, hv, hvp⟩
        exact ⟨v, mixStep_get_preserved _ _ _ _ hv, by rw [hvp, alignPoint_pos]⟩
  · -- the extremal point lands exactly at the target radius
    have hmd := maxDistOf_eq ext (centroidOf (otherWordsOf pts)) (otherWordsOf pts)
      p hp hsq hmax
    have hsqp := hsq p hp
    have ht : 0 < ext.sqrt (distSq p.pos (centroidOf (otherWordsOf pts))) :=
      hmd ▸ hpos
    have hns : Vec3.normSq (Vec3.sub p.pos (centroidOf (otherWordsOf pts)))
        = distSq p.pos (centroidOf (otherWordsOf pts)) := rfl
    rw [distSq_align, hmd, hns]
    set t := ext.sqrt (distSq p.pos (centroidOf (otherWordsOf pts))) with htdef
    rw [← hsqp.2]
    have htne : t ≠ 0 := ne_of_gt ht
    field_simp
    norm_num


theorem C1_aligned_scale_invariant_witness :
    (∃ v, mapGet (addWordsProgressivelyAligned extSqrt25 oneWordState
          (some [⟨"alpha", 3, 4, 0, false, false, false⟩,
                 ⟨"beta", -3, -4, 0, false, false, false⟩])
          "king").wordObjects "beta" = some v
      ∧ v.point.pos = Vec3.add (Vec3.smul
          (4 / maxDistOf extSqrt25
            (centroidOf (otherWordsOf [⟨"alpha", 3, 4, 0, false, false, false⟩,
                 ⟨"beta", -3, -4, 0, false, false, false⟩]))
            (otherWordsOf [⟨"alpha", 3, 4, 0, false, false, false⟩,
                 ⟨"beta", -3, -4, 0, false, false, false⟩]))
          (Vec3.sub (Point.pos ⟨"beta", -3, -4, 0, false, false, false⟩)
            (centroidOf (otherWordsOf [⟨"alpha", 3, 4, 0, false, false, false⟩,
                 ⟨"beta", -3, -4, 0, false, false, false⟩]))))
          (Point.pos ⟨"king", 0, 0, 0, true, false, false⟩))
    ∧ distSq (Vec3.add (Vec3.smul
          (4 / maxDistOf extSqrt25
            (centroidOf (otherWordsOf [⟨"alpha", 3, 4, 0, false, false, false⟩,
                 ⟨"beta", -3, -4, 0, false, false, false⟩]))
            (otherWordsOf [⟨"alpha", 3, 4, 0, false, false, false⟩,
                 ⟨"beta", -3, -4, 0, false, false, false⟩]))
          (Vec3.sub (Point.pos ⟨"alpha", 3, 4, 0, false, false, false⟩)
            (centroidOf (otherWordsOf [⟨"alpha", 3, 4, 0, false, false, false⟩,
                 ⟨"beta", -3, -4, 0, false, false, false⟩]))))
          (Point.pos ⟨"king", 0, 0, 0, true, false, false⟩))
        (Point.pos ⟨"king", 0, 0, 0, true, false, false⟩) = 16 :=
  C1_aligned_scale_invariant extSqrt25 oneWordState
    [⟨"alpha", 3, 4, 0, false, false, false⟩, ⟨"beta", -3, -4, 0, false, false, false⟩]
    "king" ⟨0, 1, ⟨"king", 0, 0, 0, true, false, false⟩, Glow.none⟩
    ⟨"alpha", 3, 4, 0, false, false, false⟩ ⟨"beta", -3, -4, 0, false, false, false⟩
    rfl
    (by
      intro r hr
      rw [show otherWordsOf [⟨"alpha", 3, 4, 0, false, false, false⟩,
            ⟨"beta", -3, -4, 0, false, false, false⟩]
          = [(⟨"alpha", 3, 4, 0, false, false, false⟩ : Point),
             ⟨"beta", -3, -4, 0, false, false, false⟩] from rfl] at hr ⊢
      have hc : centroidOf [(⟨"alpha", 3, 4, 0, false, false, false⟩ : Point),
          ⟨"beta", -3, -4, 0, false, false, false⟩] = ⟨0, 0, 0⟩ := by
        norm_num [centroidOf, Vec3.add, Vec3.smul, Point.pos]
      rw [hc]
      fin_cases hr <;>
        norm_num [extSqrt25, distSq, Vec3.normSq, Vec3.sub, Point.pos])
    (by
      rw [show otherWordsOf [⟨"alpha", 3, 4, 0, false, false, false⟩,
            ⟨"beta", -3, -4, 0, false, false, false⟩]
          = [(⟨"alpha", 3, 4, 0, false, false, false⟩ : Point),
             ⟨"beta", -3, -4, 0, false, false, false⟩] from rfl]
      have hc : centroidOf [(⟨"alpha", 3, 4, 0, false, false, false⟩ : Point),
          ⟨"beta", -3, -4, 0, false, false, false⟩] = ⟨0, 0, 0⟩ := by
        norm_num [centroidOf, Vec3.add, Vec3.smul, Point.pos]
      rw [hc]
      norm_num [maxDistOf, extSqrt25, distSq, Vec3.normSq, Vec3.sub, Point.pos])
    (by decide)
    (by
      rw [show otherWordsOf [⟨"alpha", 3, 4, 0, false, false, false⟩,
            ⟨"beta", -3, -4, 0, false, false, false⟩]
          = [(⟨"alpha", 3, 4, 0, false, false, false⟩ : Point),
             ⟨"beta", -3, -4, 0, false, false, false⟩] from rfl]
      exact List.mem_cons_of_mem _ (List.mem_singleton.mpr rfl))
    rfl
    (by
      rw [show otherWordsOf [⟨"alpha", 3, 4, 0, false, false, false⟩,
            ⟨"beta", -3, -4, 0, false, false, false⟩]
          = [(⟨"alpha", 3, 4, 0, false, false, false⟩ : Point),
             ⟨"beta", -3, -4, 0, false, false, false⟩] from rfl]
      exact List.mem_cons_self _ _)
    (by
      intro r hr
      rw [show otherWordsOf [⟨"alpha", 3, 4, 0, false, false, false⟩,
            ⟨"beta", -3, -4, 0, false, false, false⟩]
          = [(⟨"alpha", 3, 4, 0, false, false, false⟩ : Point),
             ⟨"beta", -3, -4, 0, false, false, false⟩] from rfl] at hr ⊢
      have hc : centroidOf [(⟨"alpha", 3, 4, 0, false, false, false⟩ : Point),
          ⟨"beta", -3, -4, 0, false, false, false⟩] = ⟨0, 0, 0⟩ := by
        norm_num [centroidOf, Vec3.add, Vec3.smul, Point.pos]
      rw [hc]
      fin_cases hr <;>
        norm_num [distSq, Vec3.normSq, Vec3.sub, Point.pos])

/-! ### Lemmas for the selective clear -/

theorem mem_sceneRemoveIds (sc : List SceneObj) (ids : List Nat) (o : SceneObj) :
    o ∈ sceneRemoveIds sc ids ↔ o ∈ sc ∧ ¬ o.id ∈ ids := by
  simp [sceneRemoveIds, List.mem_filter]

theorem sceneRemoveIds_sub (sc : List SceneObj) (ids : List Nat) (o : SceneObj)
    (h : o ∈ sceneRemoveIds sc ids) : o ∈ sc :=
  ((mem_sceneRemoveIds sc ids o).mp h).1

theorem removeEntriesScene_mem (ents : List (String × VisObj)) :
    ∀ (sc : List SceneObj) (o : SceneObj), o ∈ sc →
      (∀ e ∈ ents, ¬ o.id ∈ e.2.ids) → o ∈ removeEntriesScene sc ents := by
  induction ents with
  | nil => intro sc o h _; exact h
  | cons e rest ih =>
    intro sc o h hall
    simp only [removeEntriesScene, List.foldl_cons]
    refine ih _ _ ?_ (fun e2 he2 => hall e2 (List.mem_cons_of_mem e he2))
    exact (mem_sceneRemoveIds _ _ _).mpr ⟨h, hall e (List.mem_cons_self e rest)⟩

theorem removeEntriesScene_sub (ents : List (String × VisObj)) :
    ∀ (sc : List SceneObj) (o : SceneObj),
      o ∈ removeEntriesScene sc ents → o ∈ sc := by
  induction ents with
  | nil => intro sc o h; exact h
  | cons e rest ih =>
    intro sc o h
    simp only [removeEntriesScene, List.foldl_cons] at h
    exact sceneRemoveIds_sub _ _ _ (ih _ _ h)

theorem mapGet_filter_key (m : List (String × VisObj)) (p : String → Bool)
    (k : String) (hpk : p k = true) :
    mapGet (m.filter (fun e => p e.1)) k = mapGet m k := by
  induction m with
  | nil => rfl
  | cons e rest ih =>
    by_cases he : e.1 = k
    · rw [List.filter_cons_of_pos (by simpa [he] using hpk)]
      simp [mapGet, he]
    · by_cases hpe : p e.1
      · rw [List.filter_cons_of_pos (by simpa using hpe)]
        simp only [mapGet, he, if_false]
        exact ih
      · rw [List.filter_cons_of_neg (by simpa using hpe)]
        simp only [mapGet, he, if_false]
        exact ih

theorem mapGet_some_mem (m : List (String × VisObj)) (k : String) (v : VisObj)
    (h : mapGet m k = some v) : (k, v) ∈ m := by
  induction m with
  | nil => cases h
  | cons e rest ih =>
    by_cases he : e.1 = k
    · simp only [mapGet, he, if_true] at h
      injection h with h
      have hev : e = (k, v) := by
        cases e
        simp_all
      rw [← hev]
      exact List.mem_cons_self e rest
    · simp only [mapGet, he, if_false] at h
      exact List.mem_cons_of_mem e (ih h)

theorem mutObj_id (sid : Nat) (o : SceneObj) :
    (if o.id = sid then { o with color := 0xff0000, scale := 4/3 } else o).id
      = o.id := by
  split <;> rfl

theorem mutObj_sig (sid : Nat) (o : SceneObj) :
    isGlowSig (if o.id = sid then { o with color := 0xff0000, scale := 4/3 } else o)
      = isGlowSig o := by
  split <;> rfl

theorem clearExceptPhase1_wordObjects (s : VizState) (keepWord : String) :
    (clearExceptPhase1 s keepWord).wordObjects
      = s.wordObjects.filter
          (fun e => decide (e.1 = keepWord) || decide (e.1 = "current_mix")) := by
  unfold clearExceptPhase1
  split <;> rfl

theorem clearExceptPhase1_nextId (s : VizState) (keepWord : String) :
    (clearExceptPhase1 s keepWord).nextId = s.nextId := by
  unfold clearExceptPhase1
  split <;> rfl

theorem clearExceptPhase1_scene_sub (s : VizState) (keepWord : String)
    (o : SceneObj) (h : o ∈ (clearExceptPhase1 s keepWord).scene) : o ∈ s.scene := by
  unfold clearExceptPhase1 at h
  split at h
  · exact removeEntriesScene_sub _ _ _ (List.mem_filter.mp h).1
  · exact removeEntriesScene_sub _ _ _ h

theorem clearExceptPhase1_scene_mem (s : VizState) (keepWord : String)
    (o : SceneObj) (ho : o ∈ s.scene) (hsig : isGlowSig o = false)
    (hids : ∀ e ∈ s.wordObjects, e.1 ≠ keepWord → e.1 ≠ "current_mix" →
      ¬ o.id ∈ e.2.ids) :
    o ∈ (clearExceptPhase1 s keepWord).scene := by
  have h1 : o ∈ removeEntriesScene s.scene
      (s.wordObjects.filter
        (fun e => decide (e.1 ≠ keepWord) && decide (e.1 ≠ "current_mix"))) := by
    refine removeEntriesScene_mem _ _ _ ho ?_
    intro e he
    have hmem : e ∈ s.wordObjects := List.mem_of_mem_filter he
    have hpred := List.of_mem_filter he
    simp only [Bool.and_eq_true, decide_eq_true_eq] at hpred
    exact hids e hmem hpred.1 hpred.2
  unfold clearExceptPhase1
  split
  · exact List.mem_filter.mpr ⟨h1, by simp [hsig]⟩
  · exact h1

theorem restyleBaseWord_get_cm (s2 : VizState) (keepWord : String) (v : VisObj)
    (hkw : keepWord ≠ "current_mix") :
    mapGet (restyleBaseWord s2 keepWord v).wordObjects "current_mix"
      = mapGet s2.wordObjects "current_mix" := by
  unfold restyleBaseWord clearAllGlowSpheres
  exact mapGet_mapSet_ne _ _ _ _ hkw

theorem restyleBaseWord_scene_mem (s2 : VizState) (keepWord : String) (v : VisObj)
    (x : SceneObj) (hx : x ∈ s2.scene) (hxg : ¬ x.id ∈ v.glow.ids)
    (hxt : x.id ≠ v.text) (hxsig : isGlowSig x = false) :
    ∃ y ∈ (restyleBaseWord s2 keepWord v).scene, y.id = x.id := by
  refine ⟨if x.id = v.sphere then { x with color := 0xff0000, scale := 4/3 } else x,
    ?_, mutObj_id v.sphere x⟩
  unfold restyleBaseWord clearAllGlowSpheres
  refine List.mem_filter.mpr ⟨?_, by simp [mutObj_sig v.sphere x, hxsig]⟩
  refine List.mem_append_left _ ?_
  refine (mem_sceneRemoveIds _ _ _).mpr ⟨?_, ?_⟩
  · refine (mem_sceneRemoveIds _ _ _).mpr ⟨?_, ?_⟩
    · exact List.mem_map_of_mem _ hx
    · rw [mutObj_id]
      exact hxg
  · rw [mutObj_id]
    simp [hxt]

theorem restyleBaseWord_no_id (s2 : VizState) (keepWord : String) (v : VisObj)
    (gid : Nat) (hsig : ∀ x ∈ s2.scene, x.id = gid → isGlowSig x = true)
    (hlt : gid < s2.nextId) :
    ∀ y ∈ (restyleBaseWord s2 keepWord v).scene, y.id ≠ gid := by
  intro y hy hyid
  unfold restyleBaseWord clearAllGlowSpheres at hy
  rcases List.mem_filter.mp hy with ⟨hy4, hynot⟩
  rcases List.mem_append.mp hy4 with hy3 | hytx
  · have hy2 := sceneRemoveIds_sub _ _ _ (sceneRemoveIds_sub _ _ _ hy3)
    rcases List.mem_map.mp hy2 with ⟨x, hxmem, hxy⟩
    have hxid : x.id = gid := by rw [← hyid, ← hxy, mutObj_id]
    have := hsig x hxmem hxid
    rw [← hxy, mutObj_sig] at hynot
    rw [this] at hynot
    simp at hynot
  · rw [List.mem_singleton] at hytx
    rw [hytx] at hyid
    simp only [createTextMesh] at hyid
    exact absurd hyid (Nat.ne_of_gt hlt)

/-- C10: clearWordObjectsExcept(w), for a tracked word w and a present
mix marker, removes the mix marker's glow cube from the scene through
the defensive glow sweep even though the mix marker itself is exempt
from the removal loop: afterwards the mix marker's body, label and map
entry (glow handle included) remain, but no scene object with the
stored glow handle's identity exists any more. -/
theorem C10_mix_glow_swept (s : VizState) (keepWord : String) (kobj mobj : VisObj)
    (g : Nat) (ob ot : SceneObj)
    (hk : mapGet s.wordObjects keepWord = some kobj)
    (hke : keepWord ≠ "")
    (hkw : keepWord ≠ "current_mix")
    (hm : mapGet s.wordObjects "current_mix" = some mobj)
    (hg : mobj.glow = Glow.single g)
    (hgsig : ∀ o ∈ s.scene, o.id = g → isGlowSig o = true)
    (hob : ob ∈ s.scene) (hobid : ob.id = mobj.sphere) (hobsig : isGlowSig ob = false)
    (hot : ot ∈ s.scene) (hotid : ot.id = mobj.text) (hotsig : isGlowSig ot = false)
    (hdisj : ∀ e ∈ s.wordObjects, e.1 ≠ "current_mix" →
        ¬ mobj.sphere ∈ VisObj.ids e.2 ∧ ¬ mobj.text ∈ VisObj.ids e.2)
    (hgnext : g < s.nextId) :
    mapGet (clearWordObjectsExcept s keepWord).wordObjects "current_mix" = some mobj
    ∧ (clearWordObjectsExcept s keepWord).wordObjects ≠ []
    ∧ (∃ o ∈ (clearWordObjectsExcept s keepWord).scene, o.id = mobj.sphere)
    ∧ (∃ o ∈ (clearWordObjectsExcept s keepWord).scene, o.id = mobj.text)
    ∧ mobj.glow = Glow.single g
    ∧ (∀ o ∈ (clearWordObjectsExcept s keepWord).scene, o.id ≠ g) := by
  have hp1w := clearExceptPhase1_wordObjects s keepWord
  have hgetk : mapGet (clearExceptPhase1 s keepWord).wordObjects keepWord
      = some kobj := by
    rw [hp1w]
    rw [mapGet_filter_key s.wordObjects
      (fun x => decide (x = keepWord) || decide (x = "current_mix")) keepWord
      (by simp)]
    exact hk
  have hgetm : mapGet (clearExceptPhase1 s keepWord).wordObjects "current_mix"
      = some mobj := by
    rw [hp1w]
    rw [mapGet_filter_key s.wordObjects
      (fun x => decide (x = keepWord) || decide (x = "current_mix")) "current_mix"
      (by simp)]
    exact hm
  have hres : clearWordObjectsExcept s keepWord
      = restyleBaseWord (clearExceptPhase1 s keepWord) keepWord kobj := by
    simp only [clearWordObjectsExcept, hke, if_false, hgetk]
  have hkeepmem : (keepWord, kobj) ∈ s.wordObjects := mapGet_some_mem _ _ _ hk
  have hkeepids := hdisj (keepWord, kobj) hkeepmem hkw
  have hobp1 : ob ∈ (clearExceptPhase1 s keepWord).scene := by
    refine clearExceptPhase1_scene_mem s keepWord ob hob hobsig ?_
    intro e he hek hecm
    rw [hobid]
    exact (hdisj e he hecm).1
  have hotp1 : ot ∈ (clearExceptPhase1 s keepWord).scene := by
    refine clearExceptPhase1_scene_mem s keepWord ot hot hotsig ?_
    intro e he hek hecm
    rw [hotid]
    exact (hdisj e he hecm).2
  have hobglow : ¬ ob.id ∈ kobj.glow.ids := by
    rw [hobid]
    intro hin
    exact hkeepids.1 (by simp [VisObj.ids, hin])
  have hobtext : ob.id ≠ kobj.text := by
    rw [hobid]
    intro hin
    exact hkeepids.1 (by simp [VisObj.ids, hin])
  have hotglow : ¬ ot.id ∈ kobj.glow.ids := by
    rw [hotid]
    intro hin
    exact hkeepids.2 (by simp [VisObj.ids, hin])
  have hottext : ot.id ≠ kobj.text := by
    rw [hotid]
    intro hin
    exact hkeepids.2 (by simp [VisObj.ids, hin])
  refine ⟨?_, ?_, ?_, ?_, hg, ?_⟩
  · rw [hres, restyleBaseWord_get_cm _ _ _ hkw]
    exact hgetm
  · intro hnil
    have h1 : mapGet (clearWordObjectsExcept s keepWord).wordObjects "current_mix"
        = some mobj := by
      rw [hres, restyleBaseWord_get_cm _ _ _ hkw]
      exact hgetm
    rw [hnil] at h1
    cases h1
  · rw [hres]
    rcases restyleBaseWord_scene_mem _ keepWord kobj ob hobp1 hobglow hobtext hobsig
      with ⟨y, hy, hyid⟩
    exact ⟨y, hy, by rw [hyid, hobid]⟩
  · rw [hres]
    rcases restyleBaseWord_scene_mem _ keepWord kobj ot hotp1 hotglow hottext hotsig
      with ⟨y, hy, hyid⟩
    exact ⟨y, hy, by rw [hyid, hotid]⟩
  · rw [hres]
    refine restyleBaseWord_no_id _ keepWord kobj g ?_ ?_
    · intro x hx hxid
      exact hgsig x (clearExceptPhase1_scene_sub s keepWord x hx) hxid
    · rw [clearExceptPhase1_nextId]
      exact hgnext

theorem C10_mix_glow_swept_witness :
    mapGet (clearWordObjectsExcept mixKeepState "king").wordObjects "current_mix"
      = some ⟨2, 4, ⟨"mixy", 1, 1, 1, false, true, false⟩, Glow.single 3⟩
    ∧ (clearWordObjectsExcept mixKeepState "king").wordObjects ≠ []
    ∧ (∃ o ∈ (clearWordObjectsExcept mixKeepState "king").scene,
        o.id = VisObj.sphere ⟨2, 4, ⟨"mixy", 1, 1, 1, false, true, false⟩, Glow.single 3⟩)
    ∧ (∃ o ∈ (clearWordObjectsExcept mixKeepState "king").scene,
        o.id = VisObj.text ⟨2, 4, ⟨"mixy", 1, 1, 1, false, true, false⟩, Glow.single 3⟩)
    ∧ Glow.single 3
        = Glow.single 3
    ∧ (∀ o ∈ (clearWordObjectsExcept mixKeepState "king").scene, o.id ≠ 3) := by
  have h := C10_mix_glow_swept mixKeepState "king"
    ⟨0, 1, ⟨"king", 0, 0, 0, true, false, false⟩, Glow.none⟩
    ⟨2, 4, ⟨"mixy", 1, 1, 1, false, true, false⟩, Glow.single 3⟩ 3
    ⟨2, true, Geom.box, true, 9/10, 0xFF00FF, ⟨1, 1, 1⟩, 1, 3/20, Option.none⟩
    ⟨4, true, Geom.plane, true, 1, 0xFF00FF, ⟨1, 6/5, 1⟩, 1, 4/5, some "CURRENT MIX"⟩
    rfl (by decide) (by decide) rfl rfl
    (by
      intro o ho hid
      fin_cases ho
      · exact absurd hid (by decide)
      · exact absurd hid (by decide)
      · exact absurd hid (by decide)
      · norm_num [isGlowSig]
      · exact absurd hid (by decide))
    (List.mem_cons_of_mem _ (List.mem_cons_of_mem _ (List.mem_cons_self _ _)))
    rfl (by norm_num [isGlowSig])
    (List.mem_cons_of_mem _ (List.mem_cons_of_mem _ (List.mem_cons_of_mem _
      (List.mem_cons_of_mem _ (List.mem_cons_self _ _)))))
    rfl (by norm_num [isGlowSig])
    (by
      intro e he hecm
      fin_cases he
      · exact ⟨by decide, by decide⟩
      · exact absurd rfl hecm)
    (by decide)
  exact ⟨h.1, h.2.1, h.2.2.1, h.2.2.2.1, h.2.2.2.2.1, h.2.2.2.2.2⟩

end WordSynth
